import Mathlib

/-!
Verification development for the `mcp-python-helper` repository.

The Python sources are shallowly embedded: pure functions become Lean
functions, stateful code becomes explicit state passing, fallible code
returns `Except`/`Option`.  Python's `ast` statement trees are modelled by a
small mutual inductive (`Stmt`/`StmtList`) covering the statement shapes the
claims exercise (assignments, expression statements, `def`, `class`); a
genuine mutual inductive (rather than a nested `List`) keeps every function
structurally recursive and hence executable by kernel reduction.

A Python source *text* is modelled by `PyStr`: its surface text paired with
the outcome of `ast.parse` on it (the CPython parser itself is third-party
and is abstracted pointwise; everything downstream of parsing is translated
from the repository's own code).
-/

namespace MPH

/-- Expressions of the modelled Python fragment (only what the claims need). -/
inductive Expr where
  | name (s : String)
  | num (n : Int)
deriving DecidableEq, Repr

mutual
/-- Python statements, as in `ast.stmt`.  `funcdef`/`classdef` carry their
statement blocks. -/
inductive Stmt where
  | assign (lhs : String) (rhs : Expr)
  | exprStmt (e : Expr)
  | funcdef (nm : String) (body : StmtList)
  | classdef (nm : String) (body : StmtList)
deriving DecidableEq, Repr

/-- A statement block (`list[ast.stmt]` in CPython). -/
inductive StmtList where
  | nil
  | cons (s : Stmt) (rest : StmtList)
deriving DecidableEq, Repr
end

namespace StmtList

/-- Conversion to an ordinary list, used to state theorems. -/
def toList : StmtList → List Stmt
  | .nil => []
  | .cons s rest => s :: toList rest

/-- Conversion from an ordinary list. -/
def ofList : List Stmt → StmtList
  | [] => .nil
  | s :: rest => .cons s (ofList rest)

/-- Number of statements in the block. -/
def length : StmtList → Nat
  | .nil => 0
  | .cons _ rest => rest.length + 1

/-- Indexing, as Python `body[i]` (out of range gives `none`). -/
def get? : StmtList → Nat → Option Stmt
  | .nil, _ => none
  | .cons s _, 0 => some s
  | .cons _ rest, n + 1 => rest.get? n

/-- Replace the statement at index `i` (no-op when out of range), as the
effect of Python list assignment at one index. -/
def set : StmtList → Nat → Stmt → StmtList
  | .nil, _, _ => .nil
  | .cons _ rest, 0, v => .cons v rest
  | .cons s rest, n + 1, v => .cons s (rest.set n v)

/-- Insert a statement so that it ends up at index `i`, as Python
`body.insert(i, v)` (appends when `i` is past the end). -/
def insertAt : StmtList → Nat → Stmt → StmtList
  | l, 0, v => .cons v l
  | .nil, _ + 1, v => .cons v .nil
  | .cons s rest, n + 1, v => .cons s (rest.insertAt n v)

theorem toList_ofList : ∀ l : List Stmt, (ofList l).toList = l
  | [] => rfl
  | s :: rest => by simp [ofList, toList, toList_ofList rest]

theorem length_eq : ∀ l : StmtList, l.length = l.toList.length
  | .nil => rfl
  | .cons s rest => by simp [length, toList, length_eq rest]

theorem toList_set : ∀ (l : StmtList) (i : Nat) (v : Stmt),
    (l.set i v).toList = l.toList.set i v
  | .nil, _, _ => rfl
  | .cons _ _, 0, _ => rfl
  | .cons s rest, n + 1, v => by
      simp [set, toList, toList_set rest n v, List.set]

theorem toList_insertAt : ∀ (l : StmtList) (i : Nat) (v : Stmt),
    (l.insertAt i v).toList = l.toList.take i ++ v :: l.toList.drop i
  | .nil, 0, _ => rfl
  | .nil, _ + 1, _ => rfl
  | .cons _ _, 0, _ => rfl
  | .cons s rest, n + 1, v => by
      simp [insertAt, toList, toList_insertAt rest n v]

end StmtList

/-! ### Python string helpers

`" ".join(s.strip().split())` from `ast_utils.NodeFinder.generic_visit`, and
`search.split(".")`, implemented structurally over `List Char` so that they
reduce in the kernel. -/

/-- Python `str.split()` whitespace test (`str.isspace` members used in
practice: space, tab, newline, carriage return, vertical tab, form feed). -/
def pyIsSpace (c : Char) : Bool :=
  c = ' ' || c = '\t' || c = '\n' || c = '\r' || c = '\x0b' || c = '\x0c'

/-- Accumulating splitter behind Python `str.split()` (split on whitespace
runs, dropping empty pieces).  `cur` holds the current word reversed. -/
def pyWordsAux (cur : List Char) : List Char → List (List Char)
  | [] => if cur.isEmpty then [] else [cur.reverse]
  | c :: rest =>
      if pyIsSpace c then
        if cur.isEmpty then pyWordsAux [] rest
        else cur.reverse :: pyWordsAux [] rest
      else pyWordsAux (c :: cur) rest

/-- Join word lists with single spaces, as `" ".join(words)`. -/
def joinSpace : List (List Char) → List Char
  | [] => []
  | [w] => w
  | w :: rest => w ++ ' ' :: joinSpace rest

/-- `" ".join(s.strip().split())`: collapse internal whitespace runs to
single spaces and trim. -/
def pyNormalize (s : String) : String := ⟨joinSpace (pyWordsAux [] s.data)⟩

/-- Splitter behind Python `search.split(".")` (`cur` reversed). -/
def splitDotAux (cur : List Char) : List Char → List (List Char)
  | [] => [cur.reverse]
  | c :: rest =>
      if c = '.' then cur.reverse :: splitDotAux [] rest
      else splitDotAux (c :: cur) rest

/-- `search.split(".")` from `NodeFinder.__init__`. -/
def splitPath (s : String) : List String :=
  (splitDotAux [] s.data).map (fun cs => ⟨cs⟩)

/-! ### astor rendering

`astor.to_source` restricted to the embedded fragment.  Only its image under
`pyNormalize` is observable to the finder, and the regenerated file text
after a successful edit. -/

/-- Digit characters for decimal rendering (`n < 10`). -/
def digitChar (n : Nat) : Char := Char.ofNat (48 + n)

/-- Fuel-driven decimal digits of a natural number (most significant first);
any `fuel ≥ n + 1` is enough. -/
def natDigitsAux : Nat → Nat → List Char
  | 0, _ => []
  | fuel + 1, n =>
      if n < 10 then [digitChar n]
      else natDigitsAux fuel (n / 10) ++ [digitChar (n % 10)]

/-- Decimal rendering of a natural number. -/
def natToStr (n : Nat) : String := ⟨natDigitsAux (n + 1) n⟩

/-- Decimal rendering of an integer, as Python `repr` of an `int`. -/
def intToStr (i : Int) : String :=
  if i < 0 then "-" ++ natToStr i.natAbs else natToStr i.natAbs

/-- Rendering of expressions. -/
def renderExpr : Expr → String
  | .name s => s
  | .num n => intToStr n

/-- Four-space indentation prefix. -/
def indentStr : Nat → String
  | 0 => ""
  | n + 1 => "    " ++ indentStr n

mutual
/-- `astor.to_source` of one statement at indentation depth `ind` (each
statement line ends in a newline, as astor emits). -/
def renderStmtAux (ind : Nat) : Stmt → String
  | .assign l r => indentStr ind ++ l ++ " = " ++ renderExpr r ++ "\n"
  | .exprStmt e => indentStr ind ++ renderExpr e ++ "\n"
  | .funcdef n b => indentStr ind ++ "def " ++ n ++ "():\n" ++ renderBodyAux (ind + 1) b
  | .classdef n b => indentStr ind ++ "class " ++ n ++ ":\n" ++ renderBodyAux (ind + 1) b

/-- Rendering of a statement block at indentation depth `ind`. -/
def renderBodyAux (ind : Nat) : StmtList → String
  | .nil => ""
  | .cons s rest => renderStmtAux ind s ++ renderBodyAux ind rest
end

/-- `astor.to_source` of one statement (as called on a single node). -/
def renderStmt (s : Stmt) : String := renderStmtAux 0 s

/-- `astor.to_source` of a whole module. -/
def renderModule (m : StmtList) : String := renderBodyAux 0 m

/-! ### `ast_utils.NodeFinder`

`find_nodes(tree, search)` walks the tree with three matching rules:
`visit_ClassDef` (class whose name equals `path[0]`; with a longer dotted
path it records the class as `current_class` and keeps walking),
`visit_FunctionDef` (dotted `Class.member` hit, or bare-name hit), and the
overridden `generic_visit`, which text-matches every statement's
whitespace-normalized `astor.to_source` against the normalized search string
and then visits children.  A node's Python object identity is modelled by
its address in the tree: the list of child indices from the module root
(each parsed node object occurs at exactly one tree position). -/

/-- Address of a node: indices into the enclosing statement blocks. -/
abbrev Addr := List Nat

/-- The statement-text match of `NodeFinder.generic_visit` (`astor.to_source`
never raises on the embedded fragment, so the `except` arm is dead). -/
def textCheck (search : String) (addr : Addr) (s : Stmt) : List (Addr × Stmt) :=
  if pyNormalize (renderStmt s) = pyNormalize search then [(addr, s)] else []

mutual
/-- One `NodeFinder.visit` step.  `path` is `search.split(".")`, `cc` the
`current_class` name in scope, `addr` the node's address.  Appends are in
the order the Python visitor records `found_nodes`. -/
def findStmt (path : List String) (search : String) (cc : Option String)
    (addr : Addr) : Stmt → List (Addr × Stmt)
  | .assign l r => textCheck search addr (.assign l r)
  | .exprStmt e => textCheck search addr (.exprStmt e)
  | .classdef n b =>
      if n = path.headI then
        if path.length = 1 then [(addr, .classdef n b)]
        else textCheck search addr (.classdef n b) ++
          findBody path search (some n) addr 0 b
      else textCheck search addr (.classdef n b) ++
        findBody path search cc addr 0 b
  | .funcdef n b =>
      (if path.length = 2 ∧ cc = some path.headI ∧ n = path.getD 1 "" then
          [(addr, .funcdef n b)]
        else if path.length = 1 ∧ n = path.headI then [(addr, .funcdef n b)]
        else []) ++
      textCheck search addr (.funcdef n b) ++
      findBody path search cc addr 0 b

/-- Visit the statements of a block in order; `i` is the index of the head
of the remaining block within the whole block. -/
def findBody (path : List String) (search : String) (cc : Option String)
    (addr : Addr) (i : Nat) : StmtList → List (Addr × Stmt)
  | .nil => []
  | .cons s rest =>
      findStmt path search cc (addr ++ [i]) s ++
      findBody path search cc addr (i + 1) rest
end

/-- `ast_utils.find_nodes`: run the finder over a parsed module. -/
def find_nodes (tree : StmtList) (search : String) : List (Addr × Stmt) :=
  findBody (splitPath search) search none [] 0 tree

/-! ### `ast_utils.NodeModifier` and `modify_source`

`NodeModifier.__init__` parses the new-code fragment and keeps only
`parsed.body[0]` (the first top-level statement; an empty fragment raises
`IndexError`).  Its `visit` mutates the tree around the target node, which it
recognises by Python object identity (`ast.AST` has no `__eq__`), modelled by
the node's address.

The effect of `visit` on the block containing the target, derived from
CPython `NodeTransformer.generic_visit` (which iterates the live list while
`visit` may insert into it) together with the `skip_next` flag:

* `replace`: the returned `new_node` replaces the target in the rebuilt list.
* `before`, target's parent is the `Module`: `insert(idx, new_node)` shifts
  the target one slot right; the iterator then re-encounters the shifted
  target, which `skip_next` passes through — net effect: `new_node` is
  inserted at the target's index and the target is kept after it.
* `before`, nested target (parent is not a `Module`): no insertion happens,
  but `visit` still returns `new_node`, so the target is *replaced*.
* `after`, parent is the `Module`: `insert(idx+1, new_node)`; the iterator
  later reaches the inserted node, which is not identical to the target and
  is left unchanged — net effect: `new_node` inserted right after the target.
* `after`, nested target: no insertion and `visit` returns the target — the
  tree is unchanged.
* any other position string raises `InvalidPositionError` upon reaching the
  target.

Nodes not containing the target are rebuilt unchanged. -/

/-- The exceptions raised out of `ast_utils` (plus `IndexError` from
`parsed.body[0]` and `SyntaxError` from `ast.parse`), with the message
`str(e)` yields for each. -/
inductive PyError where
  | targetNotFound
  | multipleTargets (n : Nat)
  | invalidPosition
  | syntaxError (msg : String)
  | indexError
deriving DecidableEq, Repr

/-- `str(e)` of each modelled exception. -/
def PyError.msg : PyError → String
  | .targetNotFound => "Target not found"
  | .multipleTargets n => natToStr n ++ " targets found"
  | .invalidPosition => "Invalid position"
  | .syntaxError m => m
  | .indexError => "list index out of range"

/-- `NodeModifier.visit` acting at the block that contains the target
(address `[i]` relative to that block) or descending towards it.
`isModule` records whether this block is the `Module` body (the only case in
which the `before`/`after` insertions fire, because `modify_source` assigns
each node's true parent). -/
def applyMod (isModule : Bool) (new : Stmt) (pos : String) :
    Addr → StmtList → Except PyError StmtList
  | [], body => .ok body
  | [i], body =>
      if pos = "replace" then .ok (body.set i new)
      else if pos = "before" then
        .ok (if isModule then body.insertAt i new else body.set i new)
      else if pos = "after" then
        .ok (if isModule then body.insertAt (i + 1) new else body)
      else .error .invalidPosition
  | i :: j :: rest, body =>
      match body.get? i with
      | some (.funcdef n b) => do
          let b' ← applyMod false new pos (j :: rest) b
          .ok (body.set i (.funcdef n b'))
      | some (.classdef n b) => do
          let b' ← applyMod false new pos (j :: rest) b
          .ok (body.set i (.classdef n b'))
      | _ => .ok body

instance {α β : Type} [DecidableEq α] [DecidableEq β] :
    DecidableEq (Except α β) := fun
  | .ok a, .ok b =>
      match decEq a b with
      | isTrue h => isTrue (by rw [h])
      | isFalse h => isFalse (fun hh => by cases hh; exact h rfl)
  | .ok _, .error _ => isFalse (fun h => by cases h)
  | .error _, .ok _ => isFalse (fun h => by cases h)
  | .error a, .error b =>
      match decEq a b with
      | isTrue h => isTrue (by rw [h])
      | isFalse h => isFalse (fun hh => by cases hh; exact h rfl)

/-- A Python source text: its surface string paired with what `ast.parse`
yields on it (`.error msg` when the text does not parse; the CPython parser
is abstracted pointwise). -/
structure PyStr where
  text : String
  parsed : Except String StmtList
deriving DecidableEq, Repr

/-- `ast.parse`, lifting the parse outcome into the editor's error type. -/
def pyParse (s : PyStr) : Except PyError StmtList :=
  match s.parsed with
  | .ok m => .ok m
  | .error e => .error (.syntaxError e)

/-- `parsed.body[0]` from `NodeModifier.__init__`. -/
def fragFirst : StmtList → Except PyError Stmt
  | .nil => .error .indexError
  | .cons s _ => .ok s

/-- `ast_utils.modify_source(source, new_code, target, position)`: parse,
resolve the target (zero matches → `TargetNotFoundError`, several →
`MultipleTargetsFoundError`), then parse the fragment, take its first
statement and run the modifier. -/
def modify_source (source : PyStr) (new_code : PyStr) (target : String)
    (position : String) : Except PyError StmtList := do
  let tree ← pyParse source
  let nodes := find_nodes tree target
  match nodes with
  | [] => .error .targetNotFound
  | [(addr, _)] => do
      let frag ← pyParse new_code
      let newNode ← fragFirst frag
      applyMod true newNode position addr tree
  | _ => .error (.multipleTargets nodes.length)

/-! ### `tools/edit_python_code.EditPythonTool.execute`

The tool receives an optional argument dict, validates it (`raise
ValueError` for absent/falsy arguments — these two raises sit *before* the
`try`), then inside `try/except`: opens and reads the file, runs
`modify_source`, writes the result back, and returns one success text; any
exception in the `try` is returned as one
`"Error modifying code: <message>"` text.  The filesystem is modelled as an
association list from path to `PyStr`; a missing path makes `open` raise
`FileNotFoundError`. -/

/-- An apostrophe (used by several of the tool's message formats). -/
def apos : String := (Char.ofNat 39).toString

/-- Outcome of one `execute` call: an exception escaping the coroutine, or
the returned list of text contents. -/
inductive ExecOutcome where
  | raised (msg : String)
  | contents (texts : List String)
deriving DecidableEq, Repr

/-- The filesystem: path ↦ file text. -/
abbrev FS := List (String × PyStr)

/-- Overwrite-or-create a file, as `open(filename, "w")` plus `write`. -/
def fsWrite (fs : FS) (k : String) (v : PyStr) : FS :=
  match fs with
  | [] => [(k, v)]
  | (k', v') :: rest =>
      if k' = k then (k, v) :: rest else (k', v') :: fsWrite rest k v

/-- `str(e)` of the `FileNotFoundError` raised by `open` on a missing path. -/
def openErrMsg (fn : String) : String :=
  "[Errno 2] No such file or directory: " ++ apos ++ fn ++ apos

/-- The success text of `execute`. -/
def successMsg (fn pos tgt : String) : String :=
  "Successfully modified " ++ fn ++ " - " ++ pos ++ " " ++ tgt

/-- `EditPythonTool.execute(arguments)`: returns the outcome together with
the filesystem after the call. -/
def execute (fs : FS) (args : Option (List (String × PyStr))) :
    ExecOutcome × FS :=
  match args with
  | none => (.raised "Missing arguments", fs)
  | some m =>
    if m.isEmpty then (.raised "Missing arguments", fs)
    else
      match m.lookup "filename", m.lookup "code", m.lookup "target",
          m.lookup "position" with
      | some fn, some cd, some tg, some ps =>
          if fn.text = "" ∨ cd.text = "" ∨ tg.text = "" ∨ ps.text = "" then
            (.raised "Missing required arguments", fs)
          else
            match fs.lookup fn.text with
            | none =>
                (.contents ["Error modifying code: " ++ openErrMsg fn.text], fs)
            | some src =>
                match modify_source src cd tg.text ps.text with
                | .error e =>
                    (.contents ["Error modifying code: " ++ e.msg], fs)
                | .ok tree =>
                    (.contents [successMsg fn.text ps.text tg.text],
                      fsWrite fs fn.text ⟨renderModule tree, .ok tree⟩)
      | _, _, _, _ => (.raised "Missing required arguments", fs)

/-! ### Helper lemmas -/

theorem exceptBind_ok {α β ε : Type} (a : α) (f : α → Except ε β) :
    (Except.ok a >>= f : Except ε β) = f a := rfl

theorem exceptBind_error {α β ε : Type} (e : ε) (f : α → Except ε β) :
    (Except.error e >>= f : Except ε β) = Except.error e := rfl

/-- The modifier itself can only fail with `InvalidPositionError`. -/
theorem applyMod_error : ∀ {isM : Bool} {new : Stmt} {pos : String}
    {addr : Addr} {body : StmtList} {e : PyError},
    applyMod isM new pos addr body = .error e → e = .invalidPosition
  | _, _, pos, [], _, _ => by simp [applyMod]
  | _, _, pos, [i], body, e => by
      simp only [applyMod]
      split
      · simp
      · split
        · simp
        · split
          · simp
          · simp_all
  | isM, new, pos, i :: j :: rest, body, e => by
      simp only [applyMod]
      split
      · next n b _ =>
          cases hb : applyMod false new pos (j :: rest) b with
          | ok b' => simp [hb, exceptBind_ok]
          | error e' =>
              have := @applyMod_error false new pos (j :: rest) b e' hb
              simp [hb, exceptBind_error]
              intro he
              simp [← he, this]
      · next n b _ =>
          cases hb : applyMod false new pos (j :: rest) b with
          | ok b' => simp [hb, exceptBind_ok]
          | error e' =>
              have := @applyMod_error false new pos (j :: rest) b e' hb
              simp [hb, exceptBind_error]
              intro he
              simp [← he, this]
      · simp

theorem list_set_at_length (pre post : List Stmt) (t v : Stmt) :
    (pre ++ t :: post).set pre.length v = pre ++ v :: post := by
  induction pre with
  | nil => rfl
  | cons s rest ih => simp [List.set, ih]

theorem list_take_at_length (pre rest : List Stmt) :
    (pre ++ rest).take pre.length = pre := by
  induction pre with
  | nil => rfl
  | cons s pr ih => simp [List.take, ih]

theorem list_drop_at_length (pre rest : List Stmt) :
    (pre ++ rest).drop pre.length = rest := by
  induction pre with
  | nil => rfl
  | cons s pr ih => simp [List.drop, ih]

/-- `modify_source` on a source that parses, rewritten by the shape of the
finder's result. -/
theorem modify_source_eq (source new_code : PyStr) (target position : String)
    (tree : StmtList) (hp : source.parsed = .ok tree) :
    modify_source source new_code target position =
      match find_nodes tree target with
      | [] => .error .targetNotFound
      | [(addr, _)] =>
          pyParse new_code >>= fun frag =>
            fragFirst frag >>= fun newNode =>
              applyMod true newNode position addr tree
      | _ => .error (.multipleTargets (find_nodes tree target).length) := by
  simp only [modify_source, pyParse, hp, exceptBind_ok]

/-- Below a non-`Module` parent, `position=before` acts exactly like
`position=replace` (the `insert` of `NodeTransformer.generic_visit` fires
only on a `Module` parent, while `visit` still returns the new node). -/
theorem applyMod_before_nested : ∀ (new : Stmt) (addr : Addr) (b : StmtList),
    applyMod false new "before" addr b = applyMod false new "replace" addr b
  | new, [], b => rfl
  | new, [i], b => rfl
  | new, i :: j :: rest, b => by
      simp only [applyMod]
      cases hg : b.get? i with
      | none => rfl
      | some s =>
          cases s with
          | assign l r => rfl
          | exprStmt e => rfl
          | funcdef n bb =>
              show (applyMod false new "before" (j :: rest) bb).bind
                  (fun b2 => Except.ok (b.set i (.funcdef n b2))) =
                (applyMod false new "replace" (j :: rest) bb).bind
                  (fun b2 => Except.ok (b.set i (.funcdef n b2)))
              rw [applyMod_before_nested new (j :: rest) bb]
          | classdef n bb =>
              show (applyMod false new "before" (j :: rest) bb).bind
                  (fun b2 => Except.ok (b.set i (.classdef n b2))) =
                (applyMod false new "replace" (j :: rest) bb).bind
                  (fun b2 => Except.ok (b.set i (.classdef n b2)))
              rw [applyMod_before_nested new (j :: rest) bb]

/-- On a target nested below the module body (address of length at least
two), the whole edit with `position=before` coincides with
`position=replace`. -/
theorem applyMod_before_deep (new : Stmt) (i j : Nat) (rest : Addr)
    (b : StmtList) :
    applyMod true new "before" (i :: j :: rest) b =
      applyMod true new "replace" (i :: j :: rest) b := by
  simp only [applyMod]
  cases hg : b.get? i with
  | none => rfl
  | some s =>
      cases s with
      | assign l r => rfl
      | exprStmt e => rfl
      | funcdef n bb =>
          show (applyMod false new "before" (j :: rest) bb).bind
              (fun b2 => Except.ok (b.set i (.funcdef n b2))) =
            (applyMod false new "replace" (j :: rest) bb).bind
              (fun b2 => Except.ok (b.set i (.funcdef n b2)))
          rw [applyMod_before_nested new (j :: rest) bb]
      | classdef n bb =>
          show (applyMod false new "before" (j :: rest) bb).bind
              (fun b2 => Except.ok (b.set i (.classdef n b2))) =
            (applyMod false new "replace" (j :: rest) bb).bind
              (fun b2 => Except.ok (b.set i (.classdef n b2)))
          rw [applyMod_before_nested new (j :: rest) bb]

/-! ### Concrete fixtures shared by several claims -/

/-- Parsed module `x = 1`. -/
def exTreeX1 : StmtList := .cons (.assign "x" (.num 1)) .nil

/-- Source text `x = 1`. -/
def exSrcX1 : PyStr := ⟨"x = 1\n", .ok exTreeX1⟩

/-- Parsed module with the two identical statements `x = 1` / `x = 1`. -/
def exTreeXX : StmtList :=
  .cons (.assign "x" (.num 1)) (.cons (.assign "x" (.num 1)) .nil)

/-- Source text `x = 1\nx = 1`. -/
def exSrcXX : PyStr := ⟨"x = 1\nx = 1\n", .ok exTreeXX⟩

/-- New-code fragment `a = 2\nb = 3` — two top-level statements. -/
def exFragAB : PyStr :=
  ⟨"a = 2\nb = 3\n",
    .ok (.cons (.assign "a" (.num 2)) (.cons (.assign "b" (.num 3)) .nil))⟩

/-- Source text `CONSTANT = 5`. -/
def exSrcConst : PyStr :=
  ⟨"CONSTANT = 5\n", .ok (.cons (.assign "CONSTANT" (.num 5)) .nil)⟩

/-- The class name of the nested-target fixture. -/
def classCName : String := "C"

/-- Parsed module holding `class C` whose body is the one statement
`y = 1`. -/
def exTreeClassY : StmtList :=
  .cons (.classdef classCName (.cons (.assign "y" (.num 1)) .nil)) .nil

/-- Source text `class C:` / indented `y = 1`. -/
def exSrcClassY : PyStr := ⟨"class C:\n    y = 1\n", .ok exTreeClassY⟩

/-! ### Claim C4 -/

/-- C4: for every source that parses and every target, `modify_source` fails
with `TargetNotFoundError` exactly when the target resolves to zero candidate
nodes and with `MultipleTargetsFoundError` exactly when it resolves to more
than one (so only an exactly-one-match resolution proceeds to mutation); in
particular the source `x = 1\nx = 1` with target `x = 1` fails with
`MultipleTargetsFoundError`. -/
theorem C4_resolution_policy (source new_code : PyStr)
    (target position : String) (tree : StmtList)
    (hp : source.parsed = .ok tree) :
    (find_nodes tree target = [] ↔
      modify_source source new_code target position =
        .error .targetNotFound) ∧
    (1 < (find_nodes tree target).length ↔
      ∃ n, modify_source source new_code target position =
        .error (.multipleTargets n)) ∧
    modify_source exSrcXX exFragAB "x = 1" "replace" =
      .error (.multipleTargets 2) := by
  rw [modify_source_eq source new_code target position tree hp]
  refine ⟨?_, ?_, by decide⟩
  · rcases h : find_nodes tree target with _ | ⟨⟨a, s⟩, rest⟩
    · simp
    · rcases rest with _ | ⟨y, rest'⟩
      · simp only [h]
        cases hq : new_code.parsed with
        | error e => simp [pyParse, hq, exceptBind_error]
        | ok frag =>
            cases frag with
            | nil => simp [pyParse, hq, exceptBind_ok, fragFirst, exceptBind_error]
            | cons s' r' =>
                simp only [pyParse, hq, exceptBind_ok, fragFirst]
                cases ha : applyMod true s' position a tree with
                | ok tr => simp [ha]
                | error e =>
                    have he := applyMod_error ha
                    subst he
                    simp [ha]
      · simp [h]
  · rcases h : find_nodes tree target with _ | ⟨⟨a, s⟩, rest⟩
    · simp
    · rcases rest with _ | ⟨y, rest'⟩
      · simp only [h]
        constructor
        · intro hlt
          simp at hlt
        · rintro ⟨n, hn⟩
          cases hq : new_code.parsed with
          | error e => simp [pyParse, hq, exceptBind_error] at hn
          | ok frag =>
              cases frag with
              | nil =>
                  simp [pyParse, hq, exceptBind_ok, fragFirst,
                    exceptBind_error] at hn
              | cons s' r' =>
                  simp only [pyParse, hq, exceptBind_ok, fragFirst] at hn
                  cases ha : applyMod true s' position a tree with
                  | ok tr => simp [ha] at hn
                  | error e =>
                      have he := applyMod_error ha
                      subst he
                      simp [ha] at hn
      · simp [h]

/-- Witness for C4 at a concrete input: target `nope` resolves to zero
candidates in `x = 1`, so the edit fails with `TargetNotFoundError`. -/
theorem C4_witness :
    modify_source exSrcX1 exFragAB "nope" "replace" =
      .error .targetNotFound :=
  ((C4_resolution_policy exSrcX1 exFragAB "nope" "replace" exTreeX1
    rfl).1).mp (by decide)

/-! ### Claim C3 -/

/-- C3 (counterexample): two divergences from the claim.  First, the
fragment `a = 2\nb = 3` parses to two top-level statements, but replacing
`x = 1` with it yields a module holding only `a = 2` —
`NodeModifier.__init__` keeps only `parsed.body[0]`, so "all k statements
are spliced in" fails.  Second, on the nested target `y = 1` inside
`class C`, `position=before` does not insert at all: the matched statement
is replaced (`generic_visit` inserts only under a `Module` parent while
`visit` still returns the new node), so "the matched statement's index
increases" also fails. -/
theorem C3_counterexample :
    (modify_source exSrcX1 exFragAB "x = 1" "replace" =
        .ok (.cons (.assign "a" (.num 2)) .nil) ∧
      modify_source exSrcX1 exFragAB "x = 1" "replace" ≠
        .ok (.cons (.assign "a" (.num 2))
          (.cons (.assign "b" (.num 3)) .nil))) ∧
    (modify_source exSrcClassY exFragAB "y = 1" "before" =
        .ok (.cons (.classdef classCName (.cons (.assign "a" (.num 2)) .nil)) .nil) ∧
      modify_source exSrcClassY exFragAB "y = 1" "before" ≠
        .ok (.cons (.classdef classCName (.cons (.assign "a" (.num 2))
          (.cons (.assign "y" (.num 1)) .nil))) .nil)) := by
  decide

/-- C3 (amended): for every successful edit, only the *first* top-level
statement parsed from the new-code fragment is spliced.  With
`position=replace` it occupies the vacated index of the matched statement
within its containing block.  With `position=before` and a module-level
matched statement, the matched statement's index increases by exactly one
while all statements after it keep their relative order; with
`position=before` and a nested matched statement no insertion happens — the
edit coincides with `position=replace`, so the matched statement is instead
replaced by the fragment's first statement. -/
theorem C3_splice_first (source new_code : PyStr) (target : String)
    (tree frag : StmtList) (addr : Addr) (restFrag : List Stmt) (t n1 : Stmt)
    (hp : source.parsed = .ok tree)
    (hfind : find_nodes tree target = [(addr, t)])
    (hq : new_code.parsed = .ok frag)
    (hfrag : frag.toList = n1 :: restFrag) :
    (∀ pre post, addr = [pre.length] → tree.toList = pre ++ t :: post →
      (modify_source source new_code target "replace").map StmtList.toList =
        .ok (pre ++ n1 :: post) ∧
      (modify_source source new_code target "before").map StmtList.toList =
        .ok (pre ++ n1 :: t :: post)) ∧
    (2 ≤ addr.length →
      modify_source source new_code target "before" =
        modify_source source new_code target "replace") ∧
    (∀ i cname b pre2 post2, addr = [i, pre2.length] →
      tree.get? i = some (.classdef cname b) →
      b.toList = pre2 ++ t :: post2 →
      modify_source source new_code target "before" =
        .ok (tree.set i (.classdef cname (b.set pre2.length n1))) ∧
      (b.set pre2.length n1).toList = pre2 ++ n1 :: post2) := by
  obtain ⟨s1, r1, rfl⟩ : ∃ s1 r1, frag = .cons s1 r1 := by
    cases frag with
    | nil => simp [StmtList.toList] at hfrag
    | cons s1 r1 => exact ⟨s1, r1, rfl⟩
  simp only [StmtList.toList] at hfrag
  obtain ⟨hs, -⟩ := List.cons.injEq .. ▸ hfrag
  subst hs
  refine ⟨?_, ?_, ?_⟩
  · intro pre post haddr htree
    subst haddr
    rw [modify_source_eq source new_code target "replace" tree hp,
      modify_source_eq source new_code target "before" tree hp]
    simp only [hfind, pyParse, hq, exceptBind_ok, fragFirst, applyMod]
    constructor
    · simp [Except.map, StmtList.toList_set, htree, list_set_at_length]
    · simp [Except.map, StmtList.toList_insertAt, htree,
        list_take_at_length, list_drop_at_length]
  · intro hlen
    obtain ⟨i, j, rest, rfl⟩ : ∃ i j rest, addr = i :: j :: rest := by
      cases addr with
      | nil => simp at hlen
      | cons i rest0 =>
          cases rest0 with
          | nil => simp at hlen
          | cons j rest => exact ⟨i, j, rest, rfl⟩
    rw [modify_source_eq source new_code target "before" tree hp,
      modify_source_eq source new_code target "replace" tree hp]
    simp only [hfind, pyParse, hq, exceptBind_ok, fragFirst]
    exact applyMod_before_deep s1 i j rest tree
  · intro i cname b pre2 post2 haddr hget hb
    subst haddr
    rw [modify_source_eq source new_code target "before" tree hp]
    simp only [hfind, pyParse, hq, exceptBind_ok, fragFirst]
    constructor
    · simp only [applyMod]
      rw [hget]
      rfl
    · simp [StmtList.toList_set, hb, list_set_at_length]

/-- Witness for C3's amended theorem at two concrete inputs: the
module-level target `x = 1` (replace and before), and the nested target
`y = 1` inside `class C` where `before` degenerates to replacement. -/
theorem C3_witness :
    ((modify_source exSrcX1 exFragAB "x = 1" "replace").map StmtList.toList =
        .ok ([] ++ .assign "a" (.num 2) :: []) ∧
      (modify_source exSrcX1 exFragAB "x = 1" "before").map StmtList.toList =
        .ok ([] ++ .assign "a" (.num 2) :: .assign "x" (.num 1) :: [])) ∧
    (modify_source exSrcClassY exFragAB "y = 1" "before" =
        .ok (exTreeClassY.set 0 (.classdef classCName
          ((StmtList.cons (.assign "y" (.num 1)) .nil).set 0
            (.assign "a" (.num 2))))) ∧
      ((StmtList.cons (.assign "y" (.num 1)) .nil).set 0
          (.assign "a" (.num 2))).toList =
        [] ++ .assign "a" (.num 2) :: []) :=
  ⟨(C3_splice_first exSrcX1 exFragAB "x = 1" exTreeX1
      (.cons (.assign "a" (.num 2)) (.cons (.assign "b" (.num 3)) .nil))
      [0] [.assign "b" (.num 3)] (.assign "x" (.num 1))
      (.assign "a" (.num 2)) rfl (by decide) rfl (by decide)).1
    [] [] rfl (by decide),
   (C3_splice_first exSrcClassY exFragAB "y = 1" exTreeClassY
      (.cons (.assign "a" (.num 2)) (.cons (.assign "b" (.num 3)) .nil))
      [0, 0] [.assign "b" (.num 3)] (.assign "y" (.num 1))
      (.assign "a" (.num 2)) rfl (by decide) rfl (by decide)).2.2
    0 "C" (.cons (.assign "y" (.num 1)) .nil) [] [] rfl (by decide)
    (by decide)⟩

/-! ### Claim C7 -/

/-- The bare target name of the C7 scenario. -/
def constTarget : String := "CONSTANT"

/-- C7: the finder's bare-name addressing does *not* resolve a top-level
assignment by its left-hand name: against the module `CONSTANT = 5` the
target `CONSTANT` finds no candidate nodes and `modify_source` fails with
`TargetNotFoundError` (a bare function name, by contrast, does match) —
`NodeFinder` name-matches only `ClassDef`/`FunctionDef` nodes and
text-matches whole statements. -/
theorem C7_bare_name_assignment :
    find_nodes (.cons (.assign "CONSTANT" (.num 5)) .nil) "CONSTANT" = [] ∧
    modify_source exSrcConst exFragAB "CONSTANT" "replace" =
      .error .targetNotFound ∧
    find_nodes (.cons (.funcdef constTarget .nil) .nil) "CONSTANT" ≠ [] := by
  decide

/-! ### Claims about `EditPythonTool.execute` (C5, C8, C10) -/

/-- The success text never collides with an error text (they disagree on
their first character). -/
theorem successMsg_ne_error (fn ps tg msg : String) :
    successMsg fn ps tg ≠ "Error modifying code: " ++ msg := by
  intro h
  have h1 : (successMsg fn ps tg).data.head? = some 'S' := rfl
  have h2 : ("Error modifying code: " ++ msg).data.head? = some 'E' := rfl
  rw [h, h2] at h1
  exact absurd h1 (by decide)

/-- Every run of `execute` falls into one of three shapes: an escaping
exception with the filesystem untouched, a single error text with the
filesystem untouched, or the success text with exactly the edited file
rewritten. -/
theorem execute_spec (fs : FS) (args : Option (List (String × PyStr))) :
    (∃ msg, execute fs args = (.raised msg, fs)) ∨
    (∃ msg, execute fs args =
      (.contents ["Error modifying code: " ++ msg], fs)) ∨
    (∃ m fn cd tg ps src tree, args = some m ∧
      m.lookup "filename" = some fn ∧ m.lookup "code" = some cd ∧
      m.lookup "target" = some tg ∧ m.lookup "position" = some ps ∧
      fs.lookup fn.text = some src ∧
      modify_source src cd tg.text ps.text = .ok tree ∧
      execute fs args = (.contents [successMsg fn.text ps.text tg.text],
        fsWrite fs fn.text ⟨renderModule tree, .ok tree⟩)) := by
  match args with
  | none => exact .inl ⟨"Missing arguments", rfl⟩
  | some m =>
    simp only [execute]
    split
    · exact .inl ⟨"Missing arguments", rfl⟩
    · split
      · next fn cd tg ps h1 h2 h3 h4 =>
          split
          · exact .inl ⟨"Missing required arguments", rfl⟩
          · split
            · exact .inr (.inl ⟨openErrMsg fn.text, rfl⟩)
            · next src hsrc =>
                split
                · next e he => exact .inr (.inl ⟨e.msg, rfl⟩)
                · next tree htree =>
                    exact .inr (.inr ⟨m, fn, cd, tg, ps, src, tree, rfl,
                      h1, h2, h3, h4, hsrc, htree, rfl⟩)
      · exact .inl ⟨"Missing required arguments", rfl⟩

/-- A one-file filesystem holding `x = 1` at `/f.py`. -/
def exFS : FS := [("/f.py", exSrcX1)]

/-- Well-formed arguments editing `/f.py`. -/
def exArgsGood : List (String × PyStr) :=
  [("filename", ⟨"/f.py", .ok exTreeX1⟩), ("code", exFragAB),
    ("target", ⟨"x = 1", .ok .nil⟩), ("position", ⟨"replace", .ok .nil⟩)]

/-- Arguments with all four keys present but `position` the empty string. -/
def exArgsEmptyPos : List (String × PyStr) :=
  [("filename", ⟨"/f.py", .ok exTreeX1⟩), ("code", exFragAB),
    ("target", ⟨"x = 1", .ok .nil⟩), ("position", ⟨"", .ok .nil⟩)]

/-- Arguments whose target `nope` matches nothing in `/f.py`. -/
def exArgsBadTarget : List (String × PyStr) :=
  [("filename", ⟨"/f.py", .ok exTreeX1⟩), ("code", exFragAB),
    ("target", ⟨"nope", .ok .nil⟩), ("position", ⟨"replace", .ok .nil⟩)]

/-- C5 (counterexample): with all four keys present but `position` empty,
`execute` raises `ValueError("Missing required arguments")` out of the
coroutine — the two validation raises sit before the `try`, so this failure
is *not* returned as an `"Error modifying code: ..."` text content. -/
theorem C5_counterexample :
    (execute exFS (some exArgsEmptyPos)).1 =
      .raised "Missing required arguments" ∧
    (execute exFS (some exArgsEmptyPos)).1 ≠
      .contents ["Error modifying code: Missing required arguments"] := by
  decide

/-- C5 (amended): once the arguments validate (all four fields present and
non-falsy), `execute` never raises: it returns exactly one text content that
is either the success message or `"Error modifying code: <message>"` (this
covers file-open failure and every editor failure); argument:validation
failures instead escape as exceptions, e.g. a missing arguments object
raises `ValueError("Missing arguments")`. -/
theorem C5_error_boundary (fs : FS) (m : List (String × PyStr))
    (fn cd tg ps : PyStr)
    (h1 : m.lookup "filename" = some fn) (h2 : m.lookup "code" = some cd)
    (h3 : m.lookup "target" = some tg) (h4 : m.lookup "position" = some ps)
    (hv : fn.text ≠ "" ∧ cd.text ≠ "" ∧ tg.text ≠ "" ∧ ps.text ≠ "") :
    (∃ t, (execute fs (some m)).1 = .contents [t] ∧
      (t = successMsg fn.text ps.text tg.text ∨
        ∃ msg, t = "Error modifying code: " ++ msg)) ∧
    execute fs none = (.raised "Missing arguments", fs) := by
  refine ⟨?_, rfl⟩
  have hne : m.isEmpty = false := by
    cases m with
    | nil => simp [List.lookup] at h1
    | cons p rest => rfl
  simp only [execute, hne, Bool.false_eq_true, if_false, h1, h2, h3, h4]
  rw [if_neg (by
    rintro (h | h | h | h)
    · exact hv.1 h
    · exact hv.2.1 h
    · exact hv.2.2.1 h
    · exact hv.2.2.2 h)]
  split
  · exact ⟨_, rfl, .inr ⟨_, rfl⟩⟩
  · split
    · exact ⟨_, rfl, .inr ⟨_, rfl⟩⟩
    · exact ⟨_, rfl, .inl rfl⟩

/-- Witness for C5's amended theorem at a concrete input. -/
theorem C5_witness :
    (∃ t, (execute exFS (some exArgsGood)).1 = .contents [t] ∧
      (t = successMsg "/f.py" "replace" "x = 1" ∨
        ∃ msg, t = "Error modifying code: " ++ msg)) ∧
    execute exFS none = (.raised "Missing arguments", exFS) :=
  C5_error_boundary exFS exArgsGood ⟨"/f.py", .ok exTreeX1⟩ exFragAB
    ⟨"x = 1", .ok .nil⟩ ⟨"replace", .ok .nil⟩ rfl rfl rfl rfl
    (by refine ⟨?_, ?_, ?_, ?_⟩ <;> decide)

/-- C8: for every failing call (the outcome is an escaping exception or an
`"Error modifying code: ..."` text — which covers target-not-found,
ambiguous target, invalid position and unparsable fragments), the
filesystem after the call is exactly the filesystem before it: the file is
only overwritten after the editor returns successfully. -/
theorem C8_failure_preserves_file (fs : FS)
    (args : Option (List (String × PyStr)))
    (hfail : ∃ msg, (execute fs args).1 = .raised msg ∨
      (execute fs args).1 = .contents ["Error modifying code: " ++ msg]) :
    (execute fs args).2 = fs := by
  rcases execute_spec fs args with ⟨msg, he⟩ | ⟨msg, he⟩ |
    ⟨m, fn, cd, tg, ps, src, tree, _, _, _, _, _, _, _, he⟩
  · rw [he]
  · rw [he]
  · exfalso
    obtain ⟨msg', h | h⟩ := hfail
    · rw [he] at h
      exact ExecOutcome.noConfusion h
    · rw [he] at h
      have h2 := (ExecOutcome.contents.injEq .. ▸ h)
      have h3 := (List.cons.injEq .. ▸ h2).1
      exact successMsg_ne_error _ _ _ _ h3

/-- Witness for C8 at a concrete input: the failing target `nope` leaves the
one-file filesystem unchanged. -/
theorem C8_witness : (execute exFS (some exArgsBadTarget)).2 = exFS :=
  C8_failure_preserves_file exFS (some exArgsBadTarget)
    ⟨"Target not found", .inr (by decide)⟩

/-- C10: whenever all four argument keys are present but at least one maps
to an empty string, `execute` raises `ValueError("Missing required
arguments")` and leaves the filesystem untouched (the file is never even
read); and any call whose arguments simply lack that key (with a non-empty
dict) produces the identical outcome — present-but-falsy and absent
coincide at this interface. -/
theorem C10_falsy_arguments (fs : FS) (m : List (String × PyStr))
    (k : String) (v : PyStr)
    (hk : k = "filename" ∨ k = "code" ∨ k = "target" ∨ k = "position")
    (h1 : (m.lookup "filename").isSome) (h2 : (m.lookup "code").isSome)
    (h3 : (m.lookup "target").isSome) (h4 : (m.lookup "position").isSome)
    (hkv : m.lookup k = some v) (hv : v.text = "") :
    execute fs (some m) = (.raised "Missing required arguments", fs) ∧
    ∀ m' : List (String × PyStr), m' ≠ [] → m'.lookup k = none →
      execute fs (some m') = (.raised "Missing required arguments", fs) := by
  constructor
  · obtain ⟨fn, hfn⟩ := Option.isSome_iff_exists.mp h1
    obtain ⟨cd, hcd⟩ := Option.isSome_iff_exists.mp h2
    obtain ⟨tg, htg⟩ := Option.isSome_iff_exists.mp h3
    obtain ⟨ps, hps⟩ := Option.isSome_iff_exists.mp h4
    have hne : m.isEmpty = false := by
      cases m with
      | nil => simp [List.lookup] at hfn
      | cons p rest => rfl
    simp only [execute, hne, Bool.false_eq_true, if_false, hfn, hcd, htg, hps]
    rw [if_pos]
    rcases hk with hk | hk | hk | hk <;> subst hk
    · rw [hfn] at hkv
      exact .inl (by cases hkv; exact hv)
    · rw [hcd] at hkv
      exact .inr (.inl (by cases hkv; exact hv))
    · rw [htg] at hkv
      exact .inr (.inr (.inl (by cases hkv; exact hv)))
    · rw [hps] at hkv
      exact .inr (.inr (.inr (by cases hkv; exact hv)))
  · intro m' hm' habs
    have hne : m'.isEmpty = false := by
      cases m' with
      | nil => exact absurd rfl hm'
      | cons p rest => rfl
    simp only [execute, hne, Bool.false_eq_true, if_false]
    split
    · next fn cd tg ps hfn hcd htg hps =>
        exfalso
        rcases hk with hk | hk | hk | hk <;> subst hk
        · rw [habs] at hfn
          exact Option.noConfusion hfn
        · rw [habs] at hcd
          exact Option.noConfusion hcd
        · rw [habs] at htg
          exact Option.noConfusion htg
        · rw [habs] at hps
          exact Option.noConfusion hps
    · rfl

/-- Witness for C10 at a concrete input (the `position` key holds `""`). -/
theorem C10_witness :
    execute exFS (some exArgsEmptyPos) =
      (.raised "Missing required arguments", exFS) :=
  (C10_falsy_arguments exFS exArgsEmptyPos "position" ⟨"", .ok .nil⟩
    (.inr (.inr (.inr rfl))) (by decide) (by decide) (by decide) (by decide)
    (by decide) rfl).1

/-! ### Tool definitions, the registry and `handle_list_tools` (C1)

`mcp.types.Tool` is a record of name, description and JSON input schema.
Schemas here list each property with its `type`/`description` (plus the
`enum` choices and a `default`, when present — neither schema in this
repository carries a default) and the schema's `required` name list. -/

/-- One JSON-schema property of a tool input schema. -/
structure ToolField where
  type : String
  description : String
  enum : List String := []
  default : Option String := none
deriving DecidableEq, Repr

/-- A tool input schema. -/
structure InputSchema where
  type : String
  properties : List (String × ToolField)
  required : List String
deriving DecidableEq, Repr

/-- `mcp.types.Tool`. -/
structure Tool where
  name : String
  description : String
  inputSchema : InputSchema
deriving DecidableEq, Repr

/-- A plain `{"type": "string", "description": ...}` schema property. -/
def strField (d : String) : ToolField :=
  { type := "string", description := d }

/-- A string schema property with an `enum` list. -/
def enumField (e : List String) (d : String) : ToolField :=
  { type := "string", enum := e, description := d }

/-- The `position` property shared verbatim by both edit-tool schemas. -/
def positionField : ToolField :=
  enumField ["before", "after", "replace"]
    "Where to insert the code relative to the target"

/-- The one tool definition built inline by `server.handle_list_tools`
(name "edit-code"). -/
def editCodeTool : Tool :=
  { name := "edit-code",
    description :=
      "Edit Python code by inserting or replacing code at a specified location",
    inputSchema :=
      { type := "object",
        properties :=
          [("filename", strField "Full path to the Python file to edit"),
            ("code", strField "Valid Python code to insert"),
            ("target", strField ("The code snippet to target (e.g., " ++
              apos ++ "var = 3" ++ apos ++ " or " ++ apos ++
              "def my_function():" ++ apos ++ "). Indentation is ignored.")),
            ("position", positionField)],
        required := ["filename", "code", "target", "position"] } }

/-- `server.handle_list_tools()`: the list-tools result the running server
actually returns. -/
def handle_list_tools : List Tool := [editCodeTool]

/-- `EditPythonTool().get_definition()` from `tools/edit_python_code.py`. -/
def editPythonToolDefinition : Tool :=
  { name := "edit-python-code",
    description :=
      "Edit Python code by inserting or replacing code at a specified location",
    inputSchema :=
      { type := "object",
        properties :=
          [("filename", strField "Full path to the Python file to edit"),
            ("code", strField "Valid Python code to insert"),
            ("target", strField
              ("Symbol name or full line of code to target. E.g., " ++
                apos ++ "var = 3" ++ apos ++ ", " ++ apos ++ "my_function" ++
                apos ++ ", " ++ apos ++ "MyClass.my_method" ++ apos ++ ", " ++
                apos ++ "MY_CONSTANT" ++ apos)),
            ("position", positionField)],
        required := ["filename", "code", "target", "position"] } }

/-- `LocateSymbolTool().get_definition()` from `tools/locate_symbol.py`
(`LocateSymbolArguments.model_json_schema()`: both pydantic fields are
declared `Field(...)`, i.e. required with no default). -/
def locateSymbolToolDefinition : Tool :=
  { name := "locate-python-symbol",
    description := "Locate the definition of a Python symbol in the codebase",
    inputSchema :=
      { type := "object",
        properties :=
          [("symbol", strField ("Name of the symbol to locate (e.g. " ++
              apos ++ "MyClass" ++ apos ++ ", " ++ apos ++ "my_function" ++
              apos ++ ")")),
            ("workspace_root", strField "Root directory of the Python project")],
        required := ["symbol", "workspace_root"] } }

/-- Loading `tools/__init__.py`: `TOOLS = [edit_python_code.get_tool_definition()]`
evaluates at import time, but the module `edit_python_code` defines only the
class `EditPythonTool` (with a `get_definition` *method*), no module-level
`get_tool_definition` — so the import raises `AttributeError` and the
registry is unusable. -/
def registryTOOLS : Except String (List Tool) :=
  .error ("module " ++ apos ++
    "mcp_python_helper.tools.edit_python_code" ++ apos ++
    " has no attribute " ++ apos ++ "get_tool_definition" ++ apos)

/-- A schema marks every field required with no defaults. -/
def allRequiredNoDefaults (t : Tool) : Bool :=
  t.inputSchema.required = t.inputSchema.properties.map Prod.fst &&
    t.inputSchema.properties.all (fun p => p.2.default.isNone)

/-- C1: the list-tools operation of the code as it stands does *not* return
the two claimed tools: the server's `handle_list_tools` returns exactly one
definition, named "edit-code", and the registry module's `TOOLS` cannot even
be built (its import raises `AttributeError`).  The two packaged tool
classes do carry definitions named "edit-python-code" and
"locate-python-symbol" whose schemas mark every field required with no
defaults — matching the claim's intended content. -/
theorem C1_list_tools :
    handle_list_tools.map Tool.name = ["edit-code"] ∧
    handle_list_tools.length = 1 ∧
    registryTOOLS = .error ("module " ++ apos ++
      "mcp_python_helper.tools.edit_python_code" ++ apos ++
      " has no attribute " ++ apos ++ "get_tool_definition" ++ apos) ∧
    editPythonToolDefinition.name = "edit-python-code" ∧
    locateSymbolToolDefinition.name = "locate-python-symbol" ∧
    allRequiredNoDefaults editCodeTool = true ∧
    allRequiredNoDefaults editPythonToolDefinition = true ∧
    allRequiredNoDefaults locateSymbolToolDefinition = true :=
  ⟨rfl, rfl, rfl, rfl, rfl, rfl, rfl, rfl⟩

/-! ### `LocateSymbolTool` session management (C2)

`LocateSymbolTool.execute` keeps at most one `LSPServer` in `self.server`.
Its session block is

    if not self.server or self.server.workspace_root != workspace_path:
        self.server = LSPServer(workspace_root=workspace_path, ...)
        await self.server.shutdown()
        await self.server.initialize()
        self.lsp = LSPOperations(self.server)

Sessions are identified by a construction counter (Python object identity).
Every `shutdown()` *invocation* is recorded as the pair (session id,
`_is_initialized` at the time of the call) — `LSPServer.shutdown` returns
immediately when `_is_initialized` is false, so an invocation recorded with
`false` is a no-op that leaves any child process running. -/

/-- An `LSPServer` as the tool sees it. -/
structure Session where
  id : Nat
  workspace_root : String
  initialized : Bool
deriving DecidableEq, Repr

/-- The per-tool-instance state: the cached session, the construction
counter, and the log of `shutdown()` invocations. -/
structure LocateState where
  server : Option Session
  nextId : Nat
  shutdowns : List (Nat × Bool)
deriving DecidableEq, Repr

/-- The branch body: construct a fresh `LSPServer`, call `shutdown()` on it
(recorded against the *new* id, still uninitialized), then `initialize()`. -/
def switchTo (st : LocateState) (w : String) : LocateState :=
  { server := some { id := st.nextId, workspace_root := w, initialized := true },
    nextId := st.nextId + 1,
    shutdowns := st.shutdowns ++ [(st.nextId, false)] }

/-- The session-management step of one `LocateSymbolTool.execute` call with
workspace root `w`. -/
def locateSessionStep (st : LocateState) (w : String) : LocateState :=
  match st.server with
  | none => switchTo st w
  | some s => if s.workspace_root = w then st else switchTo st w

/-- State after a first call with workspace root `/a`. -/
def exStA : LocateState := locateSessionStep ⟨none, 0, []⟩ "/a"

/-- C2: on a repeat call with the same workspace root the cached session
object is reused unchanged (same id, no new construction, no shutdown); but
on a call with a different root the only `shutdown()` invocation of the
switch is made on the *new, still uninitialized* session (id 1, a no-op by
`LSPServer.shutdown`'s initialized guard) — the prior session (id 0) never
has its shutdown operation invoked, contrary to the claim. -/
theorem C2_session_switch :
    locateSessionStep exStA "/a" = exStA ∧
    exStA.server = some ⟨0, "/a", true⟩ ∧
    (locateSessionStep exStA "/b").server = some ⟨1, "/b", true⟩ ∧
    (locateSessionStep exStA "/b").shutdowns.drop exStA.shutdowns.length =
      [(1, false)] ∧
    ¬ (0, true) ∈ (locateSessionStep exStA "/b").shutdowns ∧
    ¬ (0, false) ∈ ((locateSessionStep exStA "/b").shutdowns.drop
      exStA.shutdowns.length) := by
  decide

/-! ### `LSPOperations.find_symbol` and the locate tool's rendering (C6)

`operations.find_symbol` turns each wire symbol into a plain *dict*
`{"filename", "start", "end", "kind", "name"}`; `LocateSymbolTool.execute`
then reads `symbol.location`, `symbol.name`, `symbol.kind`,
`symbol.containerName` as *attributes* — which a dict does not have.
Python values flowing through this seam are modelled by `PyVal`: either one
of the dicts that `find_symbol` builds, or a typed `WorkspaceSymbol` model
(the shape `types.py` declares and the formatter expects). -/

/-- LSP `Position` (zero-based). -/
structure LSPPosition where
  line : Nat
  character : Nat
deriving DecidableEq, Repr

/-- LSP `Range` (`end` is a Lean keyword, hence `endPos`). -/
structure LSPRange where
  start : LSPPosition
  endPos : LSPPosition
deriving DecidableEq, Repr

/-- LSP `Location`. -/
structure LSPLocation where
  uri : String
  range : LSPRange
deriving DecidableEq, Repr

/-- One symbol of a `workspace/symbol` response. -/
structure RawSymbol where
  name : String
  kind : Nat
  location : LSPLocation
  containerName : Option String
deriving DecidableEq, Repr

/-- The dict `find_symbol` builds per symbol. -/
structure SymbolDict where
  filename : String
  start : LSPPosition
  endPos : LSPPosition
  kind : Nat
  name : String
deriving DecidableEq, Repr

/-- A Python value at the `find_symbol` → formatter seam. -/
inductive PyVal where
  | dictVal (d : SymbolDict)
  | modelVal (w : RawSymbol)
deriving DecidableEq, Repr

/-- `str(Path(uri.replace("file://", "")))` for a URI carrying at most one
leading scheme occurrence. -/
def stripFileScheme (uri : String) : String :=
  if uri.data.take 7 = "file://".data then ⟨uri.data.drop 7⟩ else uri

/-- `LSPOperations.find_symbol`, given the decoded `workspace/symbol`
response (`None` yields `[]`; otherwise one dict per wire symbol). -/
def find_symbol (response : Option (List RawSymbol)) : List PyVal :=
  match response with
  | none => []
  | some syms =>
      syms.map (fun s =>
        .dictVal ⟨stripFileScheme s.location.uri, s.location.range.start,
          s.location.range.endPos, s.kind, s.name⟩)

/-- Python attribute access `obj.location`: an `AttributeError` on a dict. -/
def getattrLocation : PyVal → Except String LSPLocation
  | .dictVal _ =>
      .error (apos ++ "dict" ++ apos ++ " object has no attribute " ++
        apos ++ "location" ++ apos)
  | .modelVal w => .ok w.location

/-- `file_path.relative_to(workspace_path)` for the happy path (raises
`ValueError` when the file is not under the workspace root). -/
def relativeTo (file root : String) : Except String String :=
  if (root ++ "/").data = file.data.take (root.length + 1) then
    .ok ⟨file.data.drop (root.length + 1)⟩
  else
    .error (apos ++ file ++ apos ++ " is not in the subpath of " ++
      apos ++ root ++ apos)

/-- `"\n\n".join(results)` (and other joins). -/
def joinSep (sep : String) : List String → String
  | [] => ""
  | [x] => x
  | x :: rest => x ++ sep ++ joinSep sep rest

/-- The loop body of `LocateSymbolTool.execute` for one match: the paragraph
the claim describes, reachable only for attribute-bearing values. -/
def formatOne (workspace_root : String) (v : PyVal) : Except String String := do
  let loc ← getattrLocation v
  let rel ← relativeTo (stripFileScheme loc.uri) workspace_root
  match v with
  | .dictVal _ => .error "unreachable: getattrLocation already failed"
  | .modelVal w =>
      let base := "Found " ++ w.name ++ " (" ++ natToStr w.kind ++
        ") in:\n  File: " ++ rel ++ "\n  Line " ++
        natToStr (loc.range.start.line + 1) ++ ", Column " ++
        natToStr (loc.range.start.character + 1)
      match w.containerName with
      | some c => .ok (base ++ "\n  Container: " ++ c)
      | none => .ok base

/-- `LocateSymbolTool.execute` from the point the workspace-symbol response
is in hand: the list of text contents it returns. -/
def locateExecuteTexts (symbol workspace_root : String)
    (response : Option (List RawSymbol)) : List String :=
  let symbols := find_symbol response
  if symbols.isEmpty then
    ["No definitions found for symbol " ++ apos ++ symbol ++ apos]
  else
    match symbols.mapM (formatOne workspace_root) with
    | .ok results => [joinSep "\n\n" results]
    | .error e => ["Error locating symbol: " ++ e]

/-- A one-element `workspace/symbol` response: `MyClass`, kind 5, at
zero-based line 3 / character 0 of `/proj/main.py`. -/
def exRawMyClass : RawSymbol :=
  { name := "MyClass", kind := 5,
    location := { uri := "file:///proj/main.py",
                  range := { start := { line := 3, character := 0 },
                             endPos := { line := 3, character := 7 } } },
    containerName := none }

/-- C6: with zero results the tool returns exactly the claimed informational
text; but with one result it returns an `AttributeError` text — not the
claimed `Found ...` paragraph — because `find_symbol` hands back dicts while
the formatter reads attributes.  The formatter applied to the typed
`WorkspaceSymbol` shape produces exactly the paragraph the claim (and the
repository's own tests) expect, so the dict/attribute seam is the slip. -/
theorem C6_locate_rendering :
    locateExecuteTexts "MyClass" "/proj" (some []) =
      ["No definitions found for symbol " ++ apos ++ "MyClass" ++ apos] ∧
    locateExecuteTexts "MyClass" "/proj" none =
      ["No definitions found for symbol " ++ apos ++ "MyClass" ++ apos] ∧
    locateExecuteTexts "MyClass" "/proj" (some [exRawMyClass]) =
      ["Error locating symbol: " ++ apos ++ "dict" ++ apos ++
        " object has no attribute " ++ apos ++ "location" ++ apos] ∧
    locateExecuteTexts "MyClass" "/proj" (some [exRawMyClass]) ≠
      ["Found MyClass (5) in:\n  File: main.py\n  Line 4, Column 1"] ∧
    formatOne "/proj" (.modelVal exRawMyClass) =
      .ok "Found MyClass (5) in:\n  File: main.py\n  Line 4, Column 1" := by
  refine ⟨rfl, rfl, rfl, by decide, rfl⟩

/-! ### JSON-RPC wire framing (C9)

`LSPServer._encode_message` runs `json.dumps(msg).encode("utf-8")` and
prepends `Content-Length: <byte count>\r\n\r\n`; `_read_message` reads bytes
one at a time until the header block ends, parses the length from
`header.split(":")[1].strip()`, reads that many bytes and `json.loads`s
them.

JSON values are modelled by the mutual inductive `JVal` (numbers restricted
to integers — every message this client builds carries only ints, strings,
booleans, `None`, lists and dicts).  `json.dumps` is modelled with its
default settings: separators `", "`/`": "` and `ensure_ascii=True`, which
`\uXXXX`-escapes every character outside printable ASCII (using a surrogate
pair beyond the BMP).  Byte streams are `List Nat`. -/

mutual
/-- A JSON value (Python dict/list/str/int/bool/None). -/
inductive JVal where
  | null
  | bool (b : Bool)
  | int (n : Int)
  | str (s : String)
  | arr (xs : JArr)
  | obj (fields : JObj)
deriving DecidableEq, Repr

/-- A JSON array's elements. -/
inductive JArr where
  | nil
  | cons (v : JVal) (rest : JArr)
deriving DecidableEq, Repr

/-- A JSON object's fields, in insertion order. -/
inductive JObj where
  | nil
  | cons (k : String) (v : JVal) (rest : JObj)
deriving DecidableEq, Repr
end

/-- The `{` character (written numerically). -/
def lbrace : Char := Char.ofNat 123

/-- The `}` character (written numerically). -/
def rbrace : Char := Char.ofNat 125

/-- Lowercase hexadecimal digit (`n < 16`), as CPython's `\uXXXX` output. -/
def hexDigitChar (n : Nat) : Char :=
  if n < 10 then digitChar n else Char.ofNat (97 + (n - 10))

/-- Four lowercase hex digits of `n < 0x10000`. -/
def hex4 (n : Nat) : List Char :=
  [hexDigitChar (n / 4096 % 16), hexDigitChar (n / 256 % 16),
    hexDigitChar (n / 16 % 16), hexDigitChar (n % 16)]

/-- CPython `py_encode_basestring_ascii` escaping of one character:
quote/backslash and the five short escapes, printable ASCII kept literal,
everything else `\uXXXX` (a surrogate pair above the BMP). -/
def escapeChar (c : Char) : List Char :=
  if c = '"' then ['\\', '"']
  else if c = '\\' then ['\\', '\\']
  else if c = '\n' then ['\\', 'n']
  else if c = '\r' then ['\\', 'r']
  else if c = '\t' then ['\\', 't']
  else if c.toNat = 8 then ['\\', 'b']
  else if c.toNat = 12 then ['\\', 'f']
  else if 32 ≤ c.toNat ∧ c.toNat ≤ 126 then [c]
  else if c.toNat < 65536 then '\\' :: 'u' :: hex4 c.toNat
  else
    ('\\' :: 'u' :: hex4 (55296 + (c.toNat - 65536) / 1024)) ++
      ('\\' :: 'u' :: hex4 (56320 + (c.toNat - 65536) % 1024))

/-- Escape a string's characters and close the double quote. -/
def escapeList : List Char → List Char
  | [] => ['"']
  | c :: rest => escapeChar c ++ escapeList rest

/-- `json.dumps` of a string, including both quotes. -/
def escapeStr (s : String) : List Char := '"' :: escapeList s.data

mutual
/-- `json.dumps` (default separators, `ensure_ascii=True`) as characters. -/
def serVal : JVal → List Char
  | .null => ['n', 'u', 'l', 'l']
  | .bool false => ['f', 'a', 'l', 's', 'e']
  | .bool true => ['t', 'r', 'u', 'e']
  | .int n => (intToStr n).data
  | .str s => escapeStr s
  | .arr xs => '[' :: serArr xs
  | .obj fields => lbrace :: serObj fields

/-- Array elements after `[` (no item yet emitted). -/
def serArr : JArr → List Char
  | .nil => [']']
  | .cons v rest => serVal v ++ serArrRest rest

/-- Array elements after the first (each prefixed by `", "`). -/
def serArrRest : JArr → List Char
  | .nil => [']']
  | .cons v rest => ',' :: (' ' :: (serVal v ++ serArrRest rest))

/-- Object fields after `{` (no field yet emitted). -/
def serObj : JObj → List Char
  | .nil => [rbrace]
  | .cons k v rest =>
      escapeStr k ++ (':' :: (' ' :: (serVal v ++ serObjRest rest)))

/-- Object fields after the first (each prefixed by `", "`). -/
def serObjRest : JObj → List Char
  | .nil => [rbrace]
  | .cons k v rest =>
      ',' :: (' ' ::
        (escapeStr k ++ (':' :: (' ' :: (serVal v ++ serObjRest rest)))))
end

/-- `json.dumps(msg)` as a string. -/
def dumps (v : JVal) : String := ⟨serVal v⟩

/-! UTF-8, as `str.encode("utf-8")` / `bytes.decode("utf-8")`. -/

/-- Number of UTF-8 bytes of one character. -/
def utf8CharLen (c : Char) : Nat :=
  if c.toNat < 128 then 1
  else if c.toNat < 2048 then 2
  else if c.toNat < 65536 then 3
  else 4

/-- UTF-8 byte length of a string (the `len` of its `encode("utf-8")`). -/
def utf8Len (s : String) : Nat := (s.data.map utf8CharLen).sum

/-- UTF-8 encoding of one character. -/
def utf8EncodeChar (c : Char) : List Nat :=
  let n := c.toNat
  if n < 128 then [n]
  else if n < 2048 then [192 + n / 64, 128 + n % 64]
  else if n < 65536 then
    [224 + n / 4096, 128 + n / 64 % 64, 128 + n % 64]
  else
    [240 + n / 262144, 128 + n / 4096 % 64, 128 + n / 64 % 64, 128 + n % 64]

/-- UTF-8 encoding of a character sequence. -/
def utf8Encode : List Char → List Nat
  | [] => []
  | c :: rest => utf8EncodeChar c ++ utf8Encode rest

/-- UTF-8 decoding (`None` on a malformed stream).  Only its action on
ASCII streams is exercised here, since `ensure_ascii` keeps every framed
body and header ASCII. -/
def utf8Decode : List Nat → Option (List Char)
  | [] => some []
  | b :: rest =>
      if b < 128 then (utf8Decode rest).map (fun cs => Char.ofNat b :: cs)
      else
        match rest with
        | b2 :: rest2 =>
            if 192 ≤ b ∧ b < 224 ∧ 128 ≤ b2 ∧ b2 < 192 then
              (utf8Decode rest2).map
                (fun cs => Char.ofNat ((b - 192) * 64 + (b2 - 128)) :: cs)
            else
              match rest2 with
              | b3 :: rest3 =>
                  if 224 ≤ b ∧ b < 240 ∧ 128 ≤ b2 ∧ b2 < 192 ∧
                      128 ≤ b3 ∧ b3 < 192 then
                    (utf8Decode rest3).map (fun cs =>
                      Char.ofNat ((b - 224) * 4096 + (b2 - 128) * 64 +
                        (b3 - 128)) :: cs)
                  else
                    match rest3 with
                    | b4 :: rest4 =>
                        if 240 ≤ b ∧ 128 ≤ b2 ∧ b2 < 192 ∧ 128 ≤ b3 ∧
                            b3 < 192 ∧ 128 ≤ b4 ∧ b4 < 192 then
                          (utf8Decode rest4).map (fun cs =>
                            Char.ofNat ((b - 240) * 262144 +
                              (b2 - 128) * 4096 + (b3 - 128) * 64 +
                              (b4 - 128)) :: cs)
                        else none
                    | [] => none
              | [] => none
        | [] => none

/-! The framing itself. -/

/-- `LSPServer._encode_message(msg)`: `Content-Length: <len(content)>\r\n\r\n`
followed by `content = json.dumps(msg).encode("utf-8")`. -/
def encode_message (msg : JVal) : List Nat :=
  let content := utf8Encode (serVal msg)
  let header :=
    utf8Encode ("Content-Length: " ++ natToStr content.length ++
      "\r\n\r\n").data
  header ++ content

/-- The reader's header loop: consume bytes until the first
`\r\n\r\n` (Python appends one byte at a time and stops as soon as the
accumulated header contains the blank line, i.e. at its first occurrence),
returning the consumed header block and the remaining stream. -/
def readHeaderSplit : List Nat → Option (List Nat × List Nat)
  | [] => none
  | b :: rest =>
      if b = 13 then
        match rest with
        | 10 :: 13 :: 10 :: rest2 => some ([13, 10, 13, 10], rest2)
        | _ => (readHeaderSplit rest).map (fun p => (b :: p.1, p.2))
      else (readHeaderSplit rest).map (fun p => (b :: p.1, p.2))

/-- Splitter behind Python `header_str.split(":")` (`cur` reversed). -/
def splitColonAux (cur : List Char) : List Char → List (List Char)
  | [] => [cur.reverse]
  | c :: rest =>
      if c = ':' then cur.reverse :: splitColonAux [] rest
      else splitColonAux (c :: cur) rest

/-- Python `str.strip()`: drop whitespace from both ends. -/
def pyStrip (l : List Char) : List Char :=
  ((l.dropWhile pyIsSpace).reverse.dropWhile pyIsSpace).reverse

/-- A decimal digit character. -/
def isDigitChar (c : Char) : Bool := 48 ≤ c.toNat && c.toNat ≤ 57

/-- Value of a decimal digit list (most significant first). -/
def digitsVal : List Char → Nat → Nat
  | [], acc => acc
  | c :: rest, acc => digitsVal rest (acc * 10 + (c.toNat - 48))

/-- Python `int(s)` restricted to the unsigned decimal shapes the header
loop can produce (`None` models the `ValueError` the `except` arm eats). -/
def pyInt (l : List Char) : Option Nat :=
  if l.isEmpty then none
  else if l.all isDigitChar then some (digitsVal l 0) else none

/-! A recursive-descent model of `json.loads`, restricted to the grammar
`json.dumps` emits (integers for numbers).  Structure parsing carries fuel,
decremented at each nesting step; `json_loads` passes the input length,
which the round-trip proof shows is always sufficient. -/

/-- JSON whitespace skipping. -/
def skipWs : List Char → List Char
  | [] => []
  | c :: rest =>
      if c = ' ' ∨ c = '\t' ∨ c = '\n' ∨ c = '\r' then skipWs rest
      else c :: rest

/-- Hex digit value (`none` for a non-hex character). -/
def hexVal (c : Char) : Option Nat :=
  if 48 ≤ c.toNat ∧ c.toNat ≤ 57 then some (c.toNat - 48)
  else if 97 ≤ c.toNat ∧ c.toNat ≤ 102 then some (c.toNat - 87)
  else if 65 ≤ c.toNat ∧ c.toNat ≤ 70 then some (c.toNat - 55)
  else none

/-- Decode a matched low surrogate after the high surrogate value `hi`. -/
def parseLow (hi : Nat) : List Char → Option (Char × List Char)
  | '\\' :: 'u' :: g1 :: g2 :: g3 :: g4 :: rest4 =>
      match hexVal g1, hexVal g2, hexVal g3, hexVal g4 with
      | some a, some b, some c, some d =>
          let m := a * 4096 + b * 256 + c * 16 + d
          if 56320 ≤ m ∧ m < 57344 then
            some (Char.ofNat (65536 + (hi - 55296) * 1024 + (m - 56320)),
              rest4)
          else none
      | _, _, _, _ => none
  | _ => none

/-- Decode a `\uXXXX` payload (with surrogate-pair recombination). -/
def parseU : List Char → Option (Char × List Char)
  | h1 :: h2 :: h3 :: h4 :: rest3 =>
      match hexVal h1, hexVal h2, hexVal h3, hexVal h4 with
      | some a, some b, some c, some d =>
          let n := a * 4096 + b * 256 + c * 16 + d
          if 55296 ≤ n ∧ n < 56320 then parseLow n rest3
          else if 56320 ≤ n ∧ n < 57344 then none
          else some (Char.ofNat n, rest3)
      | _, _, _, _ => none
  | _ => none

/-- Decode one backslash escape (`e` is the character after `\`), returning
the decoded character and the rest of the input. -/
def parseEscape (e : Char) (rest2 : List Char) : Option (Char × List Char) :=
  if e = '"' then some ('"', rest2)
  else if e = '\\' then some ('\\', rest2)
  else if e = '/' then some ('/', rest2)
  else if e = 'n' then some ('\n', rest2)
  else if e = 'r' then some ('\r', rest2)
  else if e = 't' then some ('\t', rest2)
  else if e = 'b' then some (Char.ofNat 8, rest2)
  else if e = 'f' then some (Char.ofNat 12, rest2)
  else if e = 'u' then parseU rest2
  else none

/-- Parse the body of a JSON string after the opening quote, handling the
escapes `json.dumps` emits (fuel ≥ the number of decoded characters; each
step consumes at least one input character). -/
def parseStrBody : Nat → List Char → Option (List Char × List Char)
  | 0, _ => none
  | fuel + 1, input =>
      match input with
      | [] => none
      | c :: rest =>
          if c = '"' then some ([], rest)
          else if c = '\\' then
            match rest with
            | [] => none
            | e :: rest2 =>
                match parseEscape e rest2 with
                | some (ch, rest3) =>
                    (parseStrBody fuel rest3).map
                      (fun p => (ch :: p.1, p.2))
                | none => none
          else (parseStrBody fuel rest).map (fun p => (c :: p.1, p.2))

/-- Longest digit prefix. -/
def takeDigits : List Char → List Char × List Char
  | [] => ([], [])
  | c :: rest =>
      if isDigitChar c then
        ((takeDigits rest).1.cons c, (takeDigits rest).2)
      else ([], c :: rest)

mutual
/-- Parse one JSON value (fuel bounds structural nesting). -/
def parseVal : Nat → List Char → Option (JVal × List Char)
  | 0, _ => none
  | fuel + 1, input =>
      match skipWs input with
      | [] => none
      | c :: rest =>
          if c = 'n' then
            match rest with
            | 'u' :: 'l' :: 'l' :: r => some (.null, r)
            | _ => none
          else if c = 't' then
            match rest with
            | 'r' :: 'u' :: 'e' :: r => some (.bool true, r)
            | _ => none
          else if c = 'f' then
            match rest with
            | 'a' :: 'l' :: 's' :: 'e' :: r => some (.bool false, r)
            | _ => none
          else if c = '"' then
            (parseStrBody (rest.length + 1) rest).map
              (fun p => (.str ⟨p.1⟩, p.2))
          else if c = '[' then parseArrBody fuel rest
          else if c = lbrace then parseObjBody fuel rest
          else if c = '-' then
            match takeDigits rest with
            | ([], _) => none
            | (ds, r) => some (.int (-(digitsVal ds 0 : Int)), r)
          else if isDigitChar c then
            match takeDigits (c :: rest) with
            | (ds, r) => some (.int (digitsVal ds 0 : Int), r)
          else none

/-- Parse an array's elements after `[`. -/
def parseArrBody : Nat → List Char → Option (JVal × List Char)
  | 0, _ => none
  | fuel + 1, input =>
      match skipWs input with
      | [] => none
      | c :: rest =>
          if c = ']' then some (.arr .nil, rest)
          else (parseArrElems fuel (c :: rest)).map
            (fun p => (.arr p.1, p.2))

/-- Parse one-or-more comma-separated elements, then `]`. -/
def parseArrElems : Nat → List Char → Option (JArr × List Char)
  | 0, _ => none
  | fuel + 1, input => do
      let (v, r) ← parseVal fuel input
      match skipWs r with
      | [] => none
      | c :: r2 =>
          if c = ',' then do
            let (xs, r3) ← parseArrElems fuel r2
            some (.cons v xs, r3)
          else if c = ']' then some (.cons v .nil, r2)
          else none

/-- Parse an object's fields after `{`. -/
def parseObjBody : Nat → List Char → Option (JVal × List Char)
  | 0, _ => none
  | fuel + 1, input =>
      match skipWs input with
      | [] => none
      | c :: rest =>
          if c = rbrace then some (.obj .nil, rest)
          else (parseObjElems fuel (c :: rest)).map
            (fun p => (.obj p.1, p.2))

/-- Parse one-or-more `"key": value` fields, then `}`. -/
def parseObjElems : Nat → List Char → Option (JObj × List Char)
  | 0, _ => none
  | fuel + 1, input =>
      match skipWs input with
      | [] => none
      | c :: rest =>
          if c = '"' then do
            let (ks, r1) ← parseStrBody (rest.length + 1) rest
            match skipWs r1 with
            | [] => none
            | c2 :: r2 =>
                if c2 = ':' then do
                  let (v, r3) ← parseVal fuel r2
                  match skipWs r3 with
                  | [] => none
                  | c3 :: r4 =>
                      if c3 = ',' then do
                        let (fs, r5) ← parseObjElems fuel r4
                        some (.cons ⟨ks⟩ v fs, r5)
                      else if c3 = rbrace then some (.cons ⟨ks⟩ v .nil, r4)
                      else none
                else none
          else none
end

/-- `json.loads(s)`: parse one value and require only whitespace after it
(the fuel `3·length + 1` is proven sufficient for every serializer output —
`json.loads` itself is not fuel-bounded). -/
def json_loads (s : String) : Option JVal :=
  match parseVal (3 * s.data.length + 1) s.data with
  | some (v, rest) => if (skipWs rest).isEmpty then some v else none
  | none => none

/-- `LSPServer._read_message` on a byte stream: split the header block at
the first blank line, decode it, take `split(":")[1].strip()` as the
content length, read that many bytes, decode and `json.loads` them. -/
def read_message (stream : List Nat) : Option JVal := do
  let (header, rest) ← readHeaderSplit stream
  let headerChars ← utf8Decode header
  let lenField ← (splitColonAux [] headerChars).get? 1
  let n ← pyInt (pyStrip lenField)
  let contentChars ← utf8Decode (rest.take n)
  json_loads ⟨contentChars⟩

/-- The Content-Length the reader extracts from a framed stream. -/
def declaredContentLength (stream : List Nat) : Option Nat := do
  let (header, _) ← readHeaderSplit stream
  let headerChars ← utf8Decode header
  let lenField ← (splitColonAux [] headerChars).get? 1
  pyInt (pyStrip lenField)

/-! ### C9 proof machinery: decimal digits -/

theorem digitChar_toNat : ∀ m, m < 10 → (digitChar m).toNat = 48 + m := by
  decide

theorem natDigitsAux_digits : ∀ fuel n, n + 1 ≤ fuel →
    ∀ c ∈ natDigitsAux fuel n, isDigitChar c = true := by
  intro fuel
  induction fuel with
  | zero => intro n h; omega
  | succ f ih =>
      intro n h c hc
      simp only [natDigitsAux] at hc
      split at hc
      · next hn =>
          simp only [List.mem_singleton] at hc
          subst hc
          simp [isDigitChar, digitChar_toNat n hn]
          omega
      · next hn =>
          simp only [List.mem_append, List.mem_singleton] at hc
          rcases hc with hc | hc
          · exact ih (n / 10) (by
              have := Nat.div_lt_self (by omega : 0 < n) (by omega : 1 < 10)
              omega) c hc
          · subst hc
            have h10 : n % 10 < 10 := Nat.mod_lt _ (by omega)
            simp [isDigitChar, digitChar_toNat _ h10]
            omega

theorem natDigitsAux_ne_nil : ∀ fuel n, n + 1 ≤ fuel →
    natDigitsAux fuel n ≠ [] := by
  intro fuel n h
  match fuel, h with
  | f + 1, _ =>
      simp only [natDigitsAux]
      split
      · simp
      · simp

theorem digitsVal_append (l : List Char) (c : Char) (acc : Nat) :
    digitsVal (l ++ [c]) acc = digitsVal l acc * 10 + (c.toNat - 48) := by
  induction l generalizing acc with
  | nil => rfl
  | cons d rest ih => simp [digitsVal, ih]

theorem natDigitsAux_val : ∀ fuel n, n + 1 ≤ fuel →
    digitsVal (natDigitsAux fuel n) 0 = n := by
  intro fuel
  induction fuel with
  | zero => intro n h; omega
  | succ f ih =>
      intro n h
      simp only [natDigitsAux]
      split
      · next hn => simp [digitsVal, digitChar_toNat n hn]
      · next hn =>
          rw [digitsVal_append,
            ih (n / 10) (by
              have := Nat.div_lt_self (by omega : 0 < n) (by omega : 1 < 10)
              omega),
            digitChar_toNat _ (Nat.mod_lt _ (by omega))]
          omega

/-- Head of the remaining input is not a digit (or the input is empty). -/
def headNotDig : List Char → Bool
  | [] => true
  | c :: _ => !isDigitChar c

theorem takeDigits_exact : ∀ l r, (∀ c ∈ l, isDigitChar c = true) →
    headNotDig r = true → takeDigits (l ++ r) = (l, r) := by
  intro l
  induction l with
  | nil =>
      intro r _ hr
      match r with
      | [] => rfl
      | c :: rest =>
          simp only [headNotDig, Bool.not_eq_true'] at hr
          simp [takeDigits, hr]
  | cons d l' ih =>
      intro r hl hr
      have hd : isDigitChar d = true := hl d (by simp)
      have hih := ih r (fun c hc => hl c (by simp [hc])) hr
      simp [takeDigits, hd, hih]

theorem pyInt_digits (ds : List Char) (hne : ds ≠ [])
    (hds : ∀ c ∈ ds, isDigitChar c = true) :
    pyInt ds = some (digitsVal ds 0) := by
  match ds, hne with
  | d :: ds', _ =>
      have hall : (d :: ds').all isDigitChar = true := by
        rw [List.all_eq_true]
        exact hds
      simp [pyInt, hall]

/-! Hex digits and strip/split helpers -/

theorem hexVal_hexDigitChar : ∀ m, m < 16 →
    hexVal (hexDigitChar m) = some m := by
  decide

theorem splitColonAux_no_colon : ∀ (l : List Char) (cur : List Char),
    (∀ c ∈ l, c ≠ ':') → splitColonAux cur l = [cur.reverse ++ l] := by
  intro l
  induction l with
  | nil => intro cur _; simp [splitColonAux]
  | cons c rest ih =>
      intro cur h
      have hc : c ≠ ':' := h c (by simp)
      simp [splitColonAux, hc, ih (c :: cur) (fun d hd => h d (by simp [hd]))]

theorem dropWhile_not_head : ∀ (p : Char → Bool) (l : List Char),
    (∀ c, l.head? = some c → p c = false) → l.dropWhile p = l := by
  intro p l h
  match l with
  | [] => rfl
  | c :: rest => simp [List.dropWhile, h c rfl]

theorem digit_not_space {c : Char} (h : isDigitChar c = true) :
    pyIsSpace c = false := by
  by_contra hs
  rw [Bool.not_eq_false] at hs
  simp only [pyIsSpace, Bool.or_eq_true, decide_eq_true_eq] at hs
  rcases hs with ((((h1 | h1) | h1) | h1) | h1) | h1 <;>
    (subst h1; exact absurd h (by decide))

theorem pyStrip_header_field (ds : List Char) (hne : ds ≠ [])
    (hds : ∀ c ∈ ds, isDigitChar c = true) :
    pyStrip (' ' :: ds ++ ['\r', '\n', '\r', '\n']) = ds := by
  obtain ⟨d, ds', rfl⟩ : ∃ d ds', ds = d :: ds' := by
    cases ds with
    | nil => exact absurd rfl hne
    | cons d ds' => exact ⟨d, ds', rfl⟩
  have hd : pyIsSpace d = false := digit_not_space (hds d (by simp))
  have hsp : pyIsSpace ' ' = true := by decide
  have hcr : pyIsSpace '\r' = true := by decide
  have hlf : pyIsSpace '\n' = true := by decide
  have h1 : (' ' :: (d :: ds' ++ ['\r', '\n', '\r', '\n'])).dropWhile
      pyIsSpace = d :: ds' ++ ['\r', '\n', '\r', '\n'] := by
    simp [List.dropWhile, hsp, hd]
  have hrev : (d :: ds' ++ ['\r', '\n', '\r', '\n']).reverse =
      '\n' :: '\r' :: '\n' :: '\r' :: (d :: ds').reverse := by
    simp
  have h2 : ('\n' :: '\r' :: '\n' :: '\r' :: (d :: ds').reverse).dropWhile
      pyIsSpace = ((d :: ds').reverse).dropWhile pyIsSpace := by
    simp [List.dropWhile, hcr, hlf]
  have h3 : ((d :: ds').reverse).dropWhile pyIsSpace = (d :: ds').reverse := by
    refine dropWhile_not_head pyIsSpace _ ?_
    intro c hc
    have hmem : c ∈ (d :: ds').reverse := by
      cases hrev2 : (d :: ds').reverse with
      | nil => rw [hrev2] at hc; exact Option.noConfusion hc
      | cons x xs =>
          rw [hrev2] at hc
          simp only [List.head?] at hc
          cases hc
          simp [hrev2]
    rw [List.mem_reverse] at hmem
    exact digit_not_space (hds c hmem)
  show ((((' ' :: (d :: ds' ++ ['\r', '\n', '\r', '\n']))).dropWhile
    pyIsSpace).reverse.dropWhile pyIsSpace).reverse = d :: ds'
  rw [h1, hrev, h2, h3]
  simp

theorem splitColonAux_before_colon : ∀ (pre cur tail : List Char),
    (∀ c ∈ pre, c ≠ ':') →
    splitColonAux cur (pre ++ ':' :: tail) =
      (cur.reverse ++ pre) :: splitColonAux [] tail := by
  intro pre
  induction pre with
  | nil =>
      intro cur tail _
      simp [splitColonAux]
  | cons c pre' ih =>
      intro cur tail h
      have hc : c ≠ ':' := h c (by simp)
      simp only [List.cons_append, splitColonAux, List.append_eq]
      rw [if_neg hc, ih (c :: cur) tail (fun d hd => h d (by simp [hd]))]
      simp

/-- Splitting the decoded header on colons: the name, then everything after
the single colon. -/
theorem splitColon_header (ds : List Char)
    (hds : ∀ c ∈ ds, isDigitChar c = true) :
    splitColonAux [] ("Content-Length: ".data ++ ds ++
        ['\r', '\n', '\r', '\n']) =
      ["Content-Length".data, ' ' :: ds ++ ['\r', '\n', '\r', '\n']] := by
  have hnone : ∀ c ∈ ' ' :: ds ++ ['\r', '\n', '\r', '\n'], c ≠ ':' := by
    intro c hc he
    subst he
    rcases List.mem_cons.mp hc with h1 | h1
    · exact absurd h1 (by decide)
    · rcases List.mem_append.mp h1 with h2 | h2
      · exact absurd (hds _ h2) (by decide)
      · exact absurd h2 (by decide)
  have hsplit : "Content-Length: ".data ++ ds ++ ['\r', '\n', '\r', '\n'] =
      "Content-Length".data ++ ':' :: (' ' :: ds ++ ['\r', '\n', '\r', '\n'])
      := by simp
  rw [hsplit,
    splitColonAux_before_colon "Content-Length".data [] _
      (by intro c hc; revert hc; revert c; decide),
    splitColonAux_no_colon _ [] hnone]
  rfl

/-! UTF-8 on ASCII text -/

theorem utf8EncodeChar_ascii {c : Char} (h : c.toNat < 128) :
    utf8EncodeChar c = [c.toNat] := by
  simp [utf8EncodeChar, h]

theorem utf8Encode_ascii : ∀ l : List Char, (∀ c ∈ l, c.toNat < 128) →
    utf8Encode l = l.map Char.toNat := by
  intro l
  induction l with
  | nil => intro _; rfl
  | cons c rest ih =>
      intro h
      simp [utf8Encode, utf8EncodeChar_ascii (h c (by simp)),
        ih (fun d hd => h d (by simp [hd]))]

theorem utf8Decode_ascii : ∀ l : List Char, (∀ c ∈ l, c.toNat < 128) →
    utf8Decode (l.map Char.toNat) = some l := by
  intro l
  induction l with
  | nil => intro _; rfl
  | cons c rest ih =>
      intro h
      have hc : c.toNat < 128 := h c (by simp)
      unfold utf8Decode
      simp only [List.map]
      rw [if_pos hc, ih (fun d hd => h d (by simp [hd]))]
      simp [Char.ofNat_toNat]

theorem utf8Len_ascii (l : List Char) (h : ∀ c ∈ l, c.toNat < 128) :
    (l.map utf8CharLen).sum = l.length := by
  induction l with
  | nil => rfl
  | cons c rest ih =>
      simp [utf8CharLen, h c (by simp),
        ih (fun d hd => h d (by simp [hd]))]
      omega

/-! The header scan -/

theorem readHeaderSplit_spec : ∀ (pre rest : List Nat),
    (∀ b ∈ pre, b ≠ 13) →
    readHeaderSplit (pre ++ 13 :: 10 :: 13 :: 10 :: rest) =
      some (pre ++ [13, 10, 13, 10], rest) := by
  intro pre
  induction pre with
  | nil => intro rest _; rfl
  | cons b pre' ih =>
      intro rest h
      have hb : b ≠ 13 := h b (by simp)
      simp [readHeaderSplit, hb,
        ih rest (fun d hd => h d (by simp [hd]))]

/-! Sizes of JSON values, bounding the parser fuel -/

mutual
/-- Fuel needed to parse a serialized value (each nesting level passes
through `parseVal` and `parseArrBody`/`parseObjBody`, hence the `+ 2`). -/
def sizeVal : JVal → Nat
  | .null => 1
  | .bool _ => 1
  | .int _ => 1
  | .str _ => 1
  | .arr xs => sizeArr xs + 2
  | .obj fields => sizeObj fields + 2

/-- Fuel needed by `parseArrElems` for an array tail. -/
def sizeArr : JArr → Nat
  | .nil => 1
  | .cons v rest => sizeVal v + sizeArr rest + 1

/-- Fuel needed by `parseObjElems` for an object tail. -/
def sizeObj : JObj → Nat
  | .nil => 1
  | .cons _ v rest => sizeVal v + sizeObj rest + 1
end

/-! The serializer emits only ASCII (`ensure_ascii`), and its output length
bounds the fuel needs. -/

theorem digit_ascii {c : Char} (h : isDigitChar c = true) : c.toNat < 128 := by
  simp only [isDigitChar, Bool.and_eq_true, decide_eq_true_eq] at h
  omega

theorem hexDigitChar_ascii : ∀ m, m < 16 → (hexDigitChar m).toNat < 128 := by
  decide

theorem hex4_ascii (n : Nat) : ∀ c ∈ hex4 n, c.toNat < 128 := by
  intro c hc
  simp only [hex4, List.mem_cons, List.not_mem_nil, or_false] at hc
  rcases hc with rfl | rfl | rfl | rfl <;>
    exact hexDigitChar_ascii _ (Nat.mod_lt _ (by omega))

theorem escapeChar_ascii : ∀ (c x : Char), x ∈ escapeChar c →
    x.toNat < 128 := by
  intro c x hx
  simp only [escapeChar] at hx
  split_ifs at hx with h1 h2 h3 h4 h5 h6 h7 h8 h9
  · simp only [List.mem_cons, List.not_mem_nil, or_false] at hx
    rcases hx with rfl | rfl <;> decide
  · simp only [List.mem_cons, List.not_mem_nil, or_false] at hx
    rcases hx with rfl | rfl <;> decide
  · simp only [List.mem_cons, List.not_mem_nil, or_false] at hx
    rcases hx with rfl | rfl <;> decide
  · simp only [List.mem_cons, List.not_mem_nil, or_false] at hx
    rcases hx with rfl | rfl <;> decide
  · simp only [List.mem_cons, List.not_mem_nil, or_false] at hx
    rcases hx with rfl | rfl <;> decide
  · simp only [List.mem_cons, List.not_mem_nil, or_false] at hx
    rcases hx with rfl | rfl <;> decide
  · simp only [List.mem_cons, List.not_mem_nil, or_false] at hx
    rcases hx with rfl | rfl <;> decide
  · simp only [List.mem_singleton] at hx
    subst hx
    omega
  · simp only [List.mem_cons] at hx
    rcases hx with rfl | rfl | hx
    · decide
    · decide
    · exact hex4_ascii _ _ hx
  · simp only [List.mem_append, List.mem_cons] at hx
    rcases hx with (rfl | rfl | hx) | (rfl | rfl | hx)
    · decide
    · decide
    · exact hex4_ascii _ _ hx
    · decide
    · decide
    · exact hex4_ascii _ _ hx

theorem escapeList_ascii : ∀ (cs : List Char) (x : Char),
    x ∈ escapeList cs → x.toNat < 128 := by
  intro cs
  induction cs with
  | nil =>
      intro x hx
      simp only [escapeList, List.mem_singleton] at hx
      subst hx
      decide
  | cons c rest ih =>
      intro x hx
      simp only [escapeList, List.mem_append] at hx
      rcases hx with hx | hx
      · exact escapeChar_ascii c x hx
      · exact ih x hx

theorem natDigitsAux_ascii {fuel n : Nat} (h : n + 1 ≤ fuel) :
    ∀ c ∈ natDigitsAux fuel n, c.toNat < 128 :=
  fun c hc => digit_ascii (natDigitsAux_digits fuel n h c hc)

theorem intToStr_ascii (n : Int) : ∀ c ∈ (intToStr n).data, c.toNat < 128 := by
  intro c hc
  simp only [intToStr] at hc
  split at hc
  · rw [show ("-" ++ natToStr n.natAbs).data =
      '-' :: natDigitsAux (n.natAbs + 1) n.natAbs from rfl] at hc
    rcases List.mem_cons.mp hc with rfl | hc
    · decide
    · exact natDigitsAux_ascii (Nat.le_refl _) c hc
  · rw [show (natToStr n.natAbs).data =
      natDigitsAux (n.natAbs + 1) n.natAbs from rfl] at hc
    exact natDigitsAux_ascii (Nat.le_refl _) c hc

mutual
theorem serVal_ascii : ∀ (v : JVal) (x : Char), x ∈ serVal v → x.toNat < 128
  | .null, x, hx => by
      simp only [serVal, List.mem_cons, List.not_mem_nil, or_false] at hx
      rcases hx with rfl | rfl | rfl | rfl <;> decide
  | .bool true, x, hx => by
      simp only [serVal, List.mem_cons, List.not_mem_nil, or_false] at hx
      rcases hx with rfl | rfl | rfl | rfl <;> decide
  | .bool false, x, hx => by
      simp only [serVal, List.mem_cons, List.not_mem_nil, or_false] at hx
      rcases hx with rfl | rfl | rfl | rfl | rfl <;> decide
  | .int n, x, hx => intToStr_ascii n x hx
  | .str s, x, hx => by
      simp only [serVal, escapeStr, List.mem_cons] at hx
      rcases hx with rfl | hx
      · decide
      · exact escapeList_ascii s.data x hx
  | .arr xs, x, hx => by
      simp only [serVal, List.mem_cons] at hx
      rcases hx with rfl | hx
      · decide
      · exact serArr_ascii xs x hx
  | .obj fields, x, hx => by
      simp only [serVal, List.mem_cons] at hx
      rcases hx with rfl | hx
      · decide
      · exact serObj_ascii fields x hx

theorem serArr_ascii : ∀ (xs : JArr) (x : Char), x ∈ serArr xs →
    x.toNat < 128
  | .nil, x, hx => by
      simp only [serArr, List.mem_singleton] at hx
      subst hx
      decide
  | .cons v rest, x, hx => by
      simp only [serArr, List.mem_append] at hx
      rcases hx with hx | hx
      · exact serVal_ascii v x hx
      · exact serArrRest_ascii rest x hx

theorem serArrRest_ascii : ∀ (xs : JArr) (x : Char), x ∈ serArrRest xs →
    x.toNat < 128
  | .nil, x, hx => by
      simp only [serArrRest, List.mem_singleton] at hx
      subst hx
      decide
  | .cons v rest, x, hx => by
      simp only [serArrRest] at hx
      rcases List.mem_cons.mp hx with rfl | hx
      · decide
      · rcases List.mem_cons.mp hx with rfl | hx
        · decide
        · rcases List.mem_append.mp hx with hx | hx
          · exact serVal_ascii v x hx
          · exact serArrRest_ascii rest x hx

theorem serObj_ascii : ∀ (fs : JObj) (x : Char), x ∈ serObj fs →
    x.toNat < 128
  | .nil, x, hx => by
      simp only [serObj, List.mem_singleton] at hx
      subst hx
      decide
  | .cons k v rest, x, hx => by
      simp only [serObj] at hx
      rcases List.mem_append.mp hx with hx | hx
      · simp only [escapeStr] at hx
        rcases List.mem_cons.mp hx with rfl | hx
        · decide
        · exact escapeList_ascii k.data x hx
      · rcases List.mem_cons.mp hx with rfl | hx
        · decide
        · rcases List.mem_cons.mp hx with rfl | hx
          · decide
          · rcases List.mem_append.mp hx with hx | hx
            · exact serVal_ascii v x hx
            · exact serObjRest_ascii rest x hx

theorem serObjRest_ascii : ∀ (fs : JObj) (x : Char), x ∈ serObjRest fs →
    x.toNat < 128
  | .nil, x, hx => by
      simp only [serObjRest, List.mem_singleton] at hx
      subst hx
      decide
  | .cons k v rest, x, hx => by
      simp only [serObjRest] at hx
      rcases List.mem_cons.mp hx with rfl | hx
      · decide
      · rcases List.mem_cons.mp hx with rfl | hx
        · decide
        · rcases List.mem_append.mp hx with hx | hx
          · simp only [escapeStr] at hx
            rcases List.mem_cons.mp hx with rfl | hx
            · decide
            · exact escapeList_ascii k.data x hx
          · rcases List.mem_cons.mp hx with rfl | hx
            · decide
            · rcases List.mem_cons.mp hx with rfl | hx
              · decide
              · rcases List.mem_append.mp hx with hx | hx
                · exact serVal_ascii v x hx
                · exact serObjRest_ascii rest x hx
end

/-- The serialization of a value is never empty. -/
theorem serVal_len_pos : ∀ v : JVal, 1 ≤ (serVal v).length := by
  intro v
  cases v with
  | null => simp [serVal]
  | bool b => cases b <;> simp [serVal]
  | str s => simp [serVal, escapeStr]
  | arr xs => simp [serVal]
  | obj fields => simp [serVal]
  | int n =>
      simp only [serVal, intToStr]
      split
      · rw [show ("-" ++ natToStr n.natAbs).data =
          '-' :: natDigitsAux (n.natAbs + 1) n.natAbs from rfl]
        simp
      · rw [show (natToStr n.natAbs).data =
          natDigitsAux (n.natAbs + 1) n.natAbs from rfl]
        have := natDigitsAux_ne_nil (n.natAbs + 1) n.natAbs (Nat.le_refl _)
        cases h : natDigitsAux (n.natAbs + 1) n.natAbs with
        | nil => exact absurd h this
        | cons a l => simp

/-- An array tail's serialization is never empty. -/
theorem serArrRest_len_pos : ∀ xs : JArr, 1 ≤ (serArrRest xs).length := by
  intro xs
  cases xs <;> simp [serArrRest]

/-- An object tail's serialization is never empty. -/
theorem serObjRest_len_pos : ∀ fs : JObj, 1 ≤ (serObjRest fs).length := by
  intro fs
  cases fs <;> simp [serObjRest]

/-! The escape round trip: every character's `json.dumps` escape decodes
back to that character. -/

theorem parseEscape_u (x : List Char) : parseEscape 'u' x = parseU x := by
  simp [parseEscape]

theorem parseU_hex4 (n : Nat) (hn : n < 65536)
    (hs1 : ¬(55296 ≤ n ∧ n < 56320)) (hs2 : ¬(56320 ≤ n ∧ n < 57344))
    (t : List Char) : parseU (hex4 n ++ t) = some (Char.ofNat n, t) := by
  have e1 := hexVal_hexDigitChar (n / 4096 % 16) (Nat.mod_lt _ (by omega))
  have e2 := hexVal_hexDigitChar (n / 256 % 16) (Nat.mod_lt _ (by omega))
  have e3 := hexVal_hexDigitChar (n / 16 % 16) (Nat.mod_lt _ (by omega))
  have e4 := hexVal_hexDigitChar (n % 16) (Nat.mod_lt _ (by omega))
  have heq : n / 4096 % 16 * 4096 + n / 256 % 16 * 256 +
      n / 16 % 16 * 16 + n % 16 = n := by omega
  simp only [hex4, List.cons_append, parseU, e1, e2, e3, e4, heq]
  simp [hs1, hs2]

theorem parseU_pair (hi lo : Nat)
    (hhi : 55296 ≤ hi ∧ hi < 56320) (hlo : 56320 ≤ lo ∧ lo < 57344)
    (t : List Char) :
    parseU ((hex4 hi ++ ('\\' :: 'u' :: hex4 lo)) ++ t) =
      some (Char.ofNat (65536 + (hi - 55296) * 1024 + (lo - 56320)), t) := by
  have f1 := hexVal_hexDigitChar (hi / 4096 % 16) (Nat.mod_lt _ (by omega))
  have f2 := hexVal_hexDigitChar (hi / 256 % 16) (Nat.mod_lt _ (by omega))
  have f3 := hexVal_hexDigitChar (hi / 16 % 16) (Nat.mod_lt _ (by omega))
  have f4 := hexVal_hexDigitChar (hi % 16) (Nat.mod_lt _ (by omega))
  have g1 := hexVal_hexDigitChar (lo / 4096 % 16) (Nat.mod_lt _ (by omega))
  have g2 := hexVal_hexDigitChar (lo / 256 % 16) (Nat.mod_lt _ (by omega))
  have g3 := hexVal_hexDigitChar (lo / 16 % 16) (Nat.mod_lt _ (by omega))
  have g4 := hexVal_hexDigitChar (lo % 16) (Nat.mod_lt _ (by omega))
  have hieq : hi / 4096 % 16 * 4096 + hi / 256 % 16 * 256 +
      hi / 16 % 16 * 16 + hi % 16 = hi := by omega
  have loeq : lo / 4096 % 16 * 4096 + lo / 256 % 16 * 256 +
      lo / 16 % 16 * 16 + lo % 16 = lo := by omega
  simp only [hex4, List.cons_append, List.nil_append, List.append_assoc,
    parseU, f1, f2, f3, f4, hieq, if_pos hhi, parseLow, g1, g2, g3, g4,
    loeq, if_pos hlo]

theorem escapeChar_spec (c : Char) :
    (escapeChar c = [c] ∧ c ≠ '"' ∧ c ≠ '\\') ∨
    (∃ e payload, escapeChar c = '\\' :: e :: payload ∧
      ∀ t, parseEscape e (payload ++ t) = some (c, t)) := by
  have hv : c.toNat < 55296 ∨ (57343 < c.toNat ∧ c.toNat < 1114112) := c.valid
  by_cases h1 : c = '"'
  · subst h1
    exact .inr ⟨'"', [], rfl, fun t => by simp [parseEscape]⟩
  by_cases h2 : c = '\\'
  · subst h2
    exact .inr ⟨'\\', [], rfl, fun t => by simp [parseEscape]⟩
  by_cases h3 : c = '\n'
  · subst h3
    exact .inr ⟨'n', [], by simp [escapeChar], fun t => by simp [parseEscape]⟩
  by_cases h4 : c = '\r'
  · subst h4
    exact .inr ⟨'r', [], by simp [escapeChar], fun t => by simp [parseEscape]⟩
  by_cases h5 : c = '\t'
  · subst h5
    exact .inr ⟨'t', [], by simp [escapeChar], fun t => by simp [parseEscape]⟩
  by_cases h6 : c.toNat = 8
  · refine .inr ⟨'b', [], by simp [escapeChar, h1, h2, h3, h4, h5, h6],
      fun t => ?_⟩
    have hc : c = Char.ofNat 8 := by rw [← h6, Char.ofNat_toNat]
    simp [parseEscape, hc]
  by_cases h7 : c.toNat = 12
  · refine .inr ⟨'f', [], by simp [escapeChar, h1, h2, h3, h4, h5, h6, h7],
      fun t => ?_⟩
    have hc : c = Char.ofNat 12 := by rw [← h7, Char.ofNat_toNat]
    simp [parseEscape, hc]
  by_cases h8 : 32 ≤ c.toNat ∧ c.toNat ≤ 126
  · exact .inl ⟨by simp [escapeChar, h1, h2, h3, h4, h5, h6, h7, h8], h1, h2⟩
  by_cases h9 : c.toNat < 65536
  · refine .inr ⟨'u', hex4 c.toNat,
      by simp [escapeChar, h1, h2, h3, h4, h5, h6, h7, h8, h9],
      fun t => ?_⟩
    rw [parseEscape_u,
      parseU_hex4 c.toNat h9 (by omega) (by omega) t, Char.ofNat_toNat]
  have hge : 65536 ≤ c.toNat := by omega
  have hlt : c.toNat < 1114112 := by omega
  refine .inr ⟨'u', hex4 (55296 + (c.toNat - 65536) / 1024) ++
    ('\\' :: 'u' :: hex4 (56320 + (c.toNat - 65536) % 1024)),
    by simp [escapeChar, h1, h2, h3, h4, h5, h6, h7, h8, h9], fun t => ?_⟩
  have hdiv : (c.toNat - 65536) / 1024 < 1024 := by omega
  have hmod : (c.toNat - 65536) % 1024 < 1024 := Nat.mod_lt _ (by omega)
  rw [parseEscape_u,
    parseU_pair (55296 + (c.toNat - 65536) / 1024)
      (56320 + (c.toNat - 65536) % 1024) (by omega) (by omega) t,
    show 65536 + (55296 + (c.toNat - 65536) / 1024 - 55296) * 1024 +
      (56320 + (c.toNat - 65536) % 1024 - 56320) = c.toNat from by omega,
    Char.ofNat_toNat]

/-- Every escape sequence is nonempty. -/
theorem escapeChar_len_pos (c : Char) : 1 ≤ (escapeChar c).length := by
  rcases escapeChar_spec c with ⟨h, _, _⟩ | ⟨e, payload, h, _⟩ <;> simp [h]

/-- The escaped body is strictly longer than the decoded string. -/
theorem escapeList_len : ∀ cs : List Char,
    cs.length + 1 ≤ (escapeList cs).length := by
  intro cs
  induction cs with
  | nil => simp [escapeList]
  | cons c rest ih =>
      simp only [escapeList, List.length_append, List.length_cons]
      have := escapeChar_len_pos c
      omega

/-- Round trip of a whole string body: parsing the escaped characters
consumes them and stops at the closing quote. -/
theorem parseStrBody_escapeList : ∀ (cs : List Char) (fuel : Nat)
    (t : List Char), cs.length + 1 ≤ fuel →
    parseStrBody fuel (escapeList cs ++ t) = some (cs, t) := by
  intro cs
  induction cs with
  | nil =>
      intro fuel t hfuel
      match fuel, hfuel with
      | f + 1, _ =>
          simp [parseStrBody, escapeList]
  | cons c rest ih =>
      intro fuel t hfuel
      match fuel, hfuel with
      | f + 1, hf =>
          have hrec : rest.length + 1 ≤ f := by
            simp only [List.length_cons] at hf
            omega
          rcases escapeChar_spec c with ⟨hlit, hq, hb⟩ | ⟨e, payload, hesc, hp⟩
          · rw [show escapeList (c :: rest) = escapeChar c ++ escapeList rest
              from rfl, hlit]
            simp only [List.cons_append, List.nil_append, parseStrBody]
            rw [if_neg hq, if_neg hb, ih f t hrec]
            rfl
          · rw [show escapeList (c :: rest) = escapeChar c ++ escapeList rest
              from rfl, hesc]
            rw [show (('\\' :: e :: payload) ++ escapeList rest) ++ t =
              '\\' :: e :: (payload ++ (escapeList rest ++ t)) from by simp]
            rw [show parseStrBody (f + 1)
                ('\\' :: e :: (payload ++ (escapeList rest ++ t))) =
              match parseEscape e (payload ++ (escapeList rest ++ t)) with
              | some (ch, r3) =>
                  (parseStrBody f r3).map (fun p => (ch :: p.1, p.2))
              | none => none from rfl]
            rw [hp (escapeList rest ++ t)]
            show (parseStrBody f (escapeList rest ++ t)).map
              (fun p => (c :: p.1, p.2)) = some (c :: rest, t)
            rw [ih f t hrec]
            rfl

/-- Skipping whitespace stops at a non-whitespace head. -/
theorem skipWs_not_ws {c : Char} (l : List Char)
    (h : ¬(c = ' ' ∨ c = '\t' ∨ c = '\n' ∨ c = '\r')) :
    skipWs (c :: l) = c :: l := by
  simp [skipWs, h]

/-- A digit head is not a whitespace head. -/
theorem digit_not_jsonws {c : Char} (h : isDigitChar c = true) :
    ¬(c = ' ' ∨ c = '\t' ∨ c = '\n' ∨ c = '\r') := by
  rintro (rfl | rfl | rfl | rfl) <;> exact absurd h (by decide)

/-- `parseVal` ignores one leading space. -/
theorem parseVal_space (fuel : Nat) (l : List Char) :
    parseVal fuel (' ' :: l) = parseVal fuel l := by
  cases fuel with
  | zero => rfl
  | succ f =>
      simp only [parseVal]
      rw [show skipWs (' ' :: l) = skipWs l from by simp [skipWs]]

/-- `parseArrElems` ignores one leading space. -/
theorem parseArrElems_space (fuel : Nat) (l : List Char) :
    parseArrElems fuel (' ' :: l) = parseArrElems fuel l := by
  cases fuel with
  | zero => rfl
  | succ f => simp only [parseArrElems, parseVal_space]

/-- `parseObjElems` ignores one leading space. -/
theorem parseObjElems_space (fuel : Nat) (l : List Char) :
    parseObjElems fuel (' ' :: l) = parseObjElems fuel l := by
  cases fuel with
  | zero => rfl
  | succ f =>
      simp only [parseObjElems]
      rw [show skipWs (' ' :: l) = skipWs l from by simp [skipWs]]

/-- The possible first characters of a serialized value. -/
theorem serVal_head_cases : ∀ v : JVal, ∃ c t, serVal v = c :: t ∧
    (c = 'n' ∨ c = 't' ∨ c = 'f' ∨ c = '"' ∨ c = '[' ∨ c = lbrace ∨
      c = '-' ∨ isDigitChar c = true) := by
  intro v
  cases v with
  | null => exact ⟨'n', _, rfl, by tauto⟩
  | bool b =>
      cases b
      · exact ⟨'f', _, rfl, by tauto⟩
      · exact ⟨'t', _, rfl, by tauto⟩
  | str s => exact ⟨'"', _, rfl, by tauto⟩
  | arr xs => exact ⟨'[', _, rfl, by tauto⟩
  | obj fields => exact ⟨lbrace, _, rfl, by tauto⟩
  | int n =>
      simp only [serVal, intToStr]
      split
      · exact ⟨'-', _, rfl, by tauto⟩
      · rw [show (natToStr n.natAbs).data =
          natDigitsAux (n.natAbs + 1) n.natAbs from rfl]
        have hne := natDigitsAux_ne_nil (n.natAbs + 1) n.natAbs (Nat.le_refl _)
        have hall := natDigitsAux_digits (n.natAbs + 1) n.natAbs (Nat.le_refl _)
        cases h : natDigitsAux (n.natAbs + 1) n.natAbs with
        | nil => exact absurd h hne
        | cons d ds =>
            refine ⟨d, ds, rfl, ?_⟩
            have := hall d (by rw [h]; simp)
            tauto

/-- The head of a value's serialization is not whitespace, `]`, `}` or a
string terminator. -/
theorem serVal_head_facts {c : Char}
    (h : c = 'n' ∨ c = 't' ∨ c = 'f' ∨ c = '"' ∨ c = '[' ∨ c = lbrace ∨
      c = '-' ∨ isDigitChar c = true) :
    ¬(c = ' ' ∨ c = '\t' ∨ c = '\n' ∨ c = '\r') ∧ c ≠ ']' ∧ c ≠ rbrace := by
  rcases h with rfl | rfl | rfl | rfl | rfl | rfl | rfl | hd
  · exact ⟨by decide, by decide, by decide⟩
  · exact ⟨by decide, by decide, by decide⟩
  · exact ⟨by decide, by decide, by decide⟩
  · exact ⟨by decide, by decide, by decide⟩
  · exact ⟨by decide, by decide, by decide⟩
  · exact ⟨by decide, by decide, by decide⟩
  · exact ⟨by decide, by decide, by decide⟩
  · exact ⟨digit_not_jsonws hd,
      fun he => absurd (he ▸ hd) (by decide),
      fun he => absurd (he ▸ hd) (by decide)⟩

/-- After an array element the stream continues with `,` or `]`. -/
theorem serArrRest_headNotDig (xs : JArr) (rest : List Char) :
    headNotDig (serArrRest xs ++ rest) = true := by
  cases xs <;> simp [serArrRest, headNotDig, isDigitChar]

/-- After an object value the stream continues with `,` or `}`. -/
theorem serObjRest_headNotDig (fs : JObj) (rest : List Char) :
    headNotDig (serObjRest fs ++ rest) = true := by
  cases fs <;> simp [serObjRest, headNotDig, isDigitChar, rbrace]

/-- Parsing a serialized integer. -/
theorem parseVal_int (n : Int) (fuel : Nat) (rest : List Char)
    (hfuel : 1 ≤ fuel) (hrest : headNotDig rest = true) :
    parseVal fuel ((intToStr n).data ++ rest) = some (.int n, rest) := by
  match fuel, hfuel with
  | f + 1, _ =>
      have hall := natDigitsAux_digits (n.natAbs + 1) n.natAbs (Nat.le_refl _)
      have hne := natDigitsAux_ne_nil (n.natAbs + 1) n.natAbs (Nat.le_refl _)
      have hval := natDigitsAux_val (n.natAbs + 1) n.natAbs (Nat.le_refl _)
      have htake := takeDigits_exact (natDigitsAux (n.natAbs + 1) n.natAbs)
        rest hall hrest
      by_cases hn : n < 0
      · rw [show (intToStr n).data = '-' :: natDigitsAux (n.natAbs + 1)
          n.natAbs from by simp [intToStr, hn]; rfl]
        rw [show ('-' :: natDigitsAux (n.natAbs + 1) n.natAbs) ++ rest =
          '-' :: (natDigitsAux (n.natAbs + 1) n.natAbs ++ rest) from rfl]
        rw [show parseVal (f + 1)
            ('-' :: (natDigitsAux (n.natAbs + 1) n.natAbs ++ rest)) =
          (match takeDigits (natDigitsAux (n.natAbs + 1) n.natAbs ++ rest)
              with
            | ([], _) => none
            | (ds, r) => some (.int (-(digitsVal ds 0 : Int)), r)) from rfl]
        rw [htake]
        cases hds : natDigitsAux (n.natAbs + 1) n.natAbs with
        | nil => exact absurd hds hne
        | cons d ds =>
            rw [hds] at hval
            show some (JVal.int (-(digitsVal (d :: ds) 0 : Int)), rest) =
              some (JVal.int n, rest)
            rw [hval, show (-(n.natAbs : Int)) = n from by omega]
      · rw [show (intToStr n).data = natDigitsAux (n.natAbs + 1) n.natAbs
          from by simp [intToStr, hn]; rfl]
        cases hds : natDigitsAux (n.natAbs + 1) n.natAbs with
        | nil => exact absurd hds hne
        | cons d ds =>
            have hd : isDigitChar d = true := hall d (by rw [hds]; simp)
            simp only [List.cons_append, parseVal]
            rw [skipWs_not_ws _ (digit_not_jsonws hd)]
            split
            next heq => exact absurd heq (by simp)
            next c r heq =>
            have hc : d = c := by injection heq
            have hr : ds ++ rest = r := by injection heq
            subst hc
            subst hr
            rw [if_neg (show ¬(d = 'n') from fun he => by
                rw [he] at hd; exact absurd hd (by decide)),
              if_neg (show ¬(d = 't') from fun he => by
                rw [he] at hd; exact absurd hd (by decide)),
              if_neg (show ¬(d = 'f') from fun he => by
                rw [he] at hd; exact absurd hd (by decide)),
              if_neg (show ¬(d = '"') from fun he => by
                rw [he] at hd; exact absurd hd (by decide)),
              if_neg (show ¬(d = '[') from fun he => by
                rw [he] at hd; exact absurd hd (by decide)),
              if_neg (show ¬(d = lbrace) from fun he => by
                rw [he] at hd; exact absurd hd (by decide)),
              if_neg (show ¬(d = '-') from fun he => by
                rw [he] at hd; exact absurd hd (by decide)),
              if_pos hd]
            rw [hds] at htake hval
            rw [show (d :: ds) ++ rest = d :: (ds ++ rest) from rfl] at htake
            rw [htake]
            show some (JVal.int (digitsVal (d :: ds) 0 : Int), rest) =
              some (JVal.int n, rest)
            rw [hval, show ((n.natAbs : Nat) : Int) = n from by omega]

mutual
theorem sizeVal_le : ∀ v : JVal, sizeVal v + 2 ≤ 3 * (serVal v).length
  | .null => by simp [sizeVal, serVal]
  | .bool true => by simp [sizeVal, serVal]
  | .bool false => by simp [sizeVal, serVal]
  | .int n => by
      simp only [sizeVal, serVal]
      have := serVal_len_pos (.int n)
      simp only [serVal] at this
      omega
  | .str s => by
      simp only [sizeVal, serVal, escapeStr, List.length_cons]
      omega
  | .arr xs => by
      simp only [sizeVal, serVal, List.length_cons]
      have := sizeArr_le xs
      omega
  | .obj fields => by
      simp only [sizeVal, serVal, List.length_cons]
      have := sizeObj_le fields
      omega

theorem sizeArr_le : ∀ xs : JArr, sizeArr xs + 1 ≤ 3 * (serArr xs).length
  | .nil => by simp [sizeArr, serArr]
  | .cons v rest => by
      simp only [sizeArr, serArr, List.length_append]
      have h1 := sizeVal_le v
      have h2 := sizeArrRest_le rest
      omega

theorem sizeArrRest_le : ∀ xs : JArr,
    sizeArr xs + 1 ≤ 3 * (serArrRest xs).length
  | .nil => by simp [sizeArr, serArrRest]
  | .cons v rest => by
      simp only [sizeArr, serArrRest, List.length_cons, List.length_append]
      have h1 := sizeVal_le v
      have h2 := sizeArrRest_le rest
      omega

theorem sizeObj_le : ∀ fs : JObj, sizeObj fs + 1 ≤ 3 * (serObj fs).length
  | .nil => by simp [sizeObj, serObj]
  | .cons k v rest => by
      simp only [sizeObj, serObj, escapeStr, List.cons_append,
        List.length_append, List.length_cons]
      have h1 := sizeVal_le v
      have h2 := sizeObjRest_le rest
      omega

theorem sizeObjRest_le : ∀ fs : JObj,
    sizeObj fs + 1 ≤ 3 * (serObjRest fs).length
  | .nil => by simp [sizeObj, serObjRest]
  | .cons k v rest => by
      simp only [sizeObj, serObjRest, escapeStr, List.cons_append,
        List.length_append, List.length_cons]
      have h1 := sizeVal_le v
      have h2 := sizeObjRest_le rest
      omega
end

/-! ### C9: the parser inverts the serializer -/

theorem sizeVal_pos (v : JVal) : 1 ≤ sizeVal v := by
  cases v with
  | null => exact Nat.le_refl 1
  | bool b => exact Nat.le_refl 1
  | int n => exact Nat.le_refl 1
  | str s => exact Nat.le_refl 1
  | arr xs => show 1 ≤ sizeArr xs + 2; omega
  | obj fs => show 1 ≤ sizeObj fs + 2; omega

theorem sizeArr_pos (xs : JArr) : 1 ≤ sizeArr xs := by
  cases xs with
  | nil => exact Nat.le_refl 1
  | cons v rest => show 1 ≤ sizeVal v + sizeArr rest + 1; omega

theorem sizeObj_pos (fs : JObj) : 1 ≤ sizeObj fs := by
  cases fs with
  | nil => exact Nat.le_refl 1
  | cons k v rest => show 1 ≤ sizeVal v + sizeObj rest + 1; omega

/-- The three parser entry points invert the serializer, given enough fuel
and a continuation that does not start with a digit (strong induction on
the fuel, phrased with an explicit bound). -/
theorem parse_ser_aux : ∀ bound fuel : Nat, fuel ≤ bound →
    (∀ (v : JVal) (rest : List Char), sizeVal v ≤ fuel →
      headNotDig rest = true →
      parseVal fuel (serVal v ++ rest) = some (v, rest)) ∧
    (∀ (v : JVal) (xs : JArr) (rest : List Char),
      sizeVal v + sizeArr xs + 1 ≤ fuel → headNotDig rest = true →
      parseArrElems fuel (serVal v ++ (serArrRest xs ++ rest)) =
        some (JArr.cons v xs, rest)) ∧
    (∀ (k : String) (v : JVal) (fs : JObj) (rest : List Char),
      sizeVal v + sizeObj fs + 1 ≤ fuel → headNotDig rest = true →
      parseObjElems fuel
        ('"' :: (escapeList k.data ++ (':' :: (' ' ::
          (serVal v ++ (serObjRest fs ++ rest)))))) =
        some (JObj.cons k v fs, rest)) := by
  intro bound
  induction bound with
  | zero =>
      intro fuel hb
      refine ⟨?_, ?_, ?_⟩
      · intro v rest hsz _
        have := sizeVal_pos v
        omega
      · intro v xs rest hsz _
        omega
      · intro k v fs rest hsz _
        omega
  | succ b ihb =>
      intro fuel hb
      refine ⟨?_, ?_, ?_⟩
      · intro v rest hsz hrest
        cases fuel with
        | zero =>
            have := sizeVal_pos v
            omega
        | succ f =>
            cases v with
            | null => rfl
            | bool bv => cases bv <;> rfl
            | int n => exact parseVal_int n (f + 1) rest (by omega) hrest
            | str s =>
                obtain ⟨sd⟩ := s
                rw [show serVal (JVal.str ⟨sd⟩) ++ rest =
                  '"' :: (escapeList sd ++ rest) from rfl]
                rw [show parseVal (f + 1) ('"' :: (escapeList sd ++ rest)) =
                  (parseStrBody ((escapeList sd ++ rest).length + 1)
                      (escapeList sd ++ rest)).map
                    (fun p => (JVal.str ⟨p.1⟩, p.2)) from rfl]
                rw [parseStrBody_escapeList sd
                  ((escapeList sd ++ rest).length + 1) rest
                  (by have := escapeList_len sd
                      simp only [List.length_append]
                      omega)]
                rfl
            | arr xs =>
                have hsz2 : sizeArr xs + 2 ≤ f + 1 := by
                  simpa [sizeVal] using hsz
                have hxs := sizeArr_pos xs
                cases f with
                | zero => omega
                | succ f2 =>
                    rw [show serVal (JVal.arr xs) ++ rest =
                      '[' :: (serArr xs ++ rest) from by simp [serVal]]
                    rw [show parseVal (f2 + 1 + 1)
                        ('[' :: (serArr xs ++ rest)) =
                      parseArrBody (f2 + 1) (serArr xs ++ rest) from rfl]
                    cases xs with
                    | nil => rfl
                    | cons v2 xs2 =>
                        obtain ⟨c, t, hser, hc⟩ := serVal_head_cases v2
                        obtain ⟨hws, hbr, _⟩ := serVal_head_facts hc
                        rw [show serArr (JArr.cons v2 xs2) ++ rest =
                          serVal v2 ++ (serArrRest xs2 ++ rest) from by
                            simp [serArr]]
                        rw [hser, List.cons_append]
                        simp only [parseArrBody]
                        rw [skipWs_not_ws _ hws]
                        split
                        next heq => exact absurd heq (by simp)
                        next c2 r2 heq =>
                        have hc2 : c = c2 := by injection heq
                        have hr2 : t ++ (serArrRest xs2 ++ rest) = r2 := by
                          injection heq
                        subst hc2
                        subst hr2
                        rw [if_neg hbr]
                        rw [show c :: (t ++ (serArrRest xs2 ++ rest)) =
                          serVal v2 ++ (serArrRest xs2 ++ rest) from by
                            simp [hser]]
                        rw [(ihb f2 (by omega)).2.1 v2 xs2 rest
                          (by simp only [sizeArr] at hsz2; omega) hrest]
                        rfl
            | obj fs =>
                have hsz2 : sizeObj fs + 2 ≤ f + 1 := by
                  simpa [sizeVal] using hsz
                have hfs := sizeObj_pos fs
                cases f with
                | zero => omega
                | succ f2 =>
                    rw [show serVal (JVal.obj fs) ++ rest =
                      lbrace :: (serObj fs ++ rest) from by simp [serVal]]
                    rw [show parseVal (f2 + 1 + 1)
                        (lbrace :: (serObj fs ++ rest)) =
                      parseObjBody (f2 + 1) (serObj fs ++ rest) from rfl]
                    cases fs with
                    | nil => rfl
                    | cons k v2 fs2 =>
                        rw [show serObj (JObj.cons k v2 fs2) ++ rest =
                          '"' :: (escapeList k.data ++ (':' :: (' ' ::
                            (serVal v2 ++ (serObjRest fs2 ++ rest)))))
                          from by simp [serObj, escapeStr]]
                        rw [show parseObjBody (f2 + 1)
                            ('"' :: (escapeList k.data ++ (':' :: (' ' ::
                              (serVal v2 ++ (serObjRest fs2 ++ rest)))))) =
                          (parseObjElems f2
                              ('"' :: (escapeList k.data ++ (':' :: (' ' ::
                                (serVal v2 ++
                                  (serObjRest fs2 ++ rest))))))).map
                            (fun p => (JVal.obj p.1, p.2)) from rfl]
                        rw [(ihb f2 (by omega)).2.2 k v2 fs2 rest
                          (by simp only [sizeObj] at hsz2; omega) hrest]
                        rfl
      · intro v xs rest hsz hrest
        cases fuel with
        | zero => omega
        | succ f =>
            have hPV := (ihb f (by omega)).1 v (serArrRest xs ++ rest)
              (by have := sizeArr_pos xs; omega)
              (serArrRest_headNotDig xs rest)
            simp only [parseArrElems]
            rw [hPV]
            cases xs with
            | nil => rfl
            | cons v2 xs2 =>
                rw [show serArrRest (JArr.cons v2 xs2) ++ rest =
                  ',' :: (' ' :: (serVal v2 ++ (serArrRest xs2 ++ rest)))
                  from by simp [serArrRest]]
                show (parseArrElems f
                    (' ' :: (serVal v2 ++ (serArrRest xs2 ++ rest)))).bind
                  (fun p => some (JArr.cons v p.1, p.2)) =
                  some (JArr.cons v (JArr.cons v2 xs2), rest)
                rw [parseArrElems_space]
                rw [(ihb f (by omega)).2.1 v2 xs2 rest
                  (by simp only [sizeArr] at hsz
                      have := sizeVal_pos v
                      omega) hrest]
                rfl
      · intro k v fs rest hsz hrest
        obtain ⟨kd⟩ := k
        cases fuel with
        | zero => omega
        | succ f =>
            rw [show (String.mk kd).data = kd from rfl]
            rw [show parseObjElems (f + 1)
                ('"' :: (escapeList kd ++ (':' :: (' ' ::
                  (serVal v ++ (serObjRest fs ++ rest)))))) =
              (do
                let (ks, r1) ← parseStrBody
                  ((escapeList kd ++ (':' :: (' ' ::
                    (serVal v ++ (serObjRest fs ++ rest))))).length + 1)
                  (escapeList kd ++ (':' :: (' ' ::
                    (serVal v ++ (serObjRest fs ++ rest)))))
                match skipWs r1 with
                | [] => none
                | c2 :: r2 =>
                    if c2 = ':' then do
                      let (v2, r3) ← parseVal f r2
                      match skipWs r3 with
                      | [] => none
                      | c3 :: r4 =>
                          if c3 = ',' then do
                            let (fs2, r5) ← parseObjElems f r4
                            some (JObj.cons ⟨ks⟩ v2 fs2, r5)
                          else if c3 = rbrace then
                            some (JObj.cons ⟨ks⟩ v2 JObj.nil, r4)
                          else none
                    else none
                : Option (JObj × List Char)) from rfl]
            rw [parseStrBody_escapeList kd
              ((escapeList kd ++ (':' :: (' ' ::
                (serVal v ++ (serObjRest fs ++ rest))))).length + 1)
              (':' :: (' ' :: (serVal v ++ (serObjRest fs ++ rest))))
              (by have := escapeList_len kd
                  simp only [List.length_append]
                  omega)]
            show (parseVal f
                (' ' :: (serVal v ++ (serObjRest fs ++ rest)))).bind
              (fun q =>
                match skipWs q.2 with
                | [] => none
                | c3 :: r4 =>
                    if c3 = ',' then
                      (parseObjElems f r4).bind
                        (fun w => some (JObj.cons ⟨kd⟩ q.1 w.1, w.2))
                    else if c3 = rbrace then
                      some (JObj.cons ⟨kd⟩ q.1 JObj.nil, r4)
                    else none) =
              some (JObj.cons (String.mk kd) v fs, rest)
            have hv : parseVal f
                (' ' :: (serVal v ++ (serObjRest fs ++ rest))) =
                some (v, serObjRest fs ++ rest) := by
              rw [parseVal_space]
              exact (ihb f (by omega)).1 v (serObjRest fs ++ rest)
                (by have := sizeObj_pos fs; omega)
                (serObjRest_headNotDig fs rest)
            rw [hv]
            cases fs with
            | nil => rfl
            | cons k2 v2 fs2 =>
                rw [show serObjRest (JObj.cons k2 v2 fs2) ++ rest =
                  ',' :: (' ' :: ('"' :: (escapeList k2.data ++ (':' ::
                    (' ' :: (serVal v2 ++ (serObjRest fs2 ++ rest)))))))
                  from by simp [serObjRest, escapeStr]]
                show (parseObjElems f
                    (' ' :: ('"' :: (escapeList k2.data ++ (':' :: (' ' ::
                      (serVal v2 ++ (serObjRest fs2 ++ rest)))))))).bind
                  (fun w => some (JObj.cons (String.mk kd) v w.1, w.2)) =
                  some (JObj.cons (String.mk kd) v
                    (JObj.cons k2 v2 fs2), rest)
                rw [parseObjElems_space]
                rw [(ihb f (by omega)).2.2 k2 v2 fs2 rest
                  (by simp only [sizeObj] at hsz
                      have := sizeVal_pos v
                      omega) hrest]
                rfl

/-- `json.loads` inverts `json.dumps`. -/
theorem json_loads_dumps (v : JVal) : json_loads (dumps v) = some v := by
  have h := (parse_ser_aux (3 * (serVal v).length + 1)
      (3 * (serVal v).length + 1) (Nat.le_refl _)).1 v []
    (by have := sizeVal_le v; omega) rfl
  rw [List.append_nil] at h
  show (match parseVal (3 * (serVal v).length + 1) (serVal v) with
    | some (w, r) => if (skipWs r).isEmpty then some w else none
    | none => none) = some v
  rw [h]
  rfl

theorem strData_append (a b : String) : (a ++ b).data = a.data ++ b.data :=
  rfl

/-- Full framing round trip: the declared Content-Length is the UTF-8 byte
length of `json.dumps(msg)`, and reading back the encoder's exact output
reconstructs the message. -/
theorem frame_roundtrip (v : JVal) :
    declaredContentLength (encode_message v) = some (utf8Len (dumps v)) ∧
    read_message (encode_message v) = some v := by
  have hasciiS : ∀ c ∈ serVal v, c.toNat < 128 :=
    fun c hc => serVal_ascii v c hc
  have hcontent : utf8Encode (serVal v) = (serVal v).map Char.toNat :=
    utf8Encode_ascii _ hasciiS
  have hclen : (utf8Encode (serVal v)).length = (serVal v).length := by
    rw [hcontent]; simp
  have hdig : ∀ c ∈ (natToStr (serVal v).length).data,
      isDigitChar c = true :=
    fun c hc => natDigitsAux_digits ((serVal v).length + 1)
      (serVal v).length (Nat.le_refl _) c hc
  have hne : (natToStr (serVal v).length).data ≠ [] :=
    natDigitsAux_ne_nil ((serVal v).length + 1) (serVal v).length
      (Nat.le_refl _)
  have hval : digitsVal (natToStr (serVal v).length).data 0 =
      (serVal v).length :=
    natDigitsAux_val ((serVal v).length + 1) (serVal v).length
      (Nat.le_refl _)
  have hasciiH : ∀ c ∈ ("Content-Length: ".data ++
      (natToStr (serVal v).length).data) ++ ['\r', '\n', '\r', '\n'],
      c.toNat < 128 := by
    have hlit : ∀ x ∈ "Content-Length: ".data, x.toNat < 128 := by decide
    have hcr : ∀ x ∈ ['\r', '\n', '\r', '\n'], x.toNat < 128 := by
      decide
    intro c hc
    rcases List.mem_append.mp hc with h1 | h1
    · rcases List.mem_append.mp h1 with h2 | h2
      · exact hlit c h2
      · exact natDigitsAux_ascii (Nat.le_refl _) c h2
    · exact hcr c h1
  have hHdr : ("Content-Length: " ++
      natToStr (utf8Encode (serVal v)).length ++ "\r\n\r\n").data =
      ("Content-Length: ".data ++ (natToStr (serVal v).length).data) ++
        ['\r', '\n', '\r', '\n'] := by
    rw [hclen, strData_append, strData_append,
      show ("\r\n\r\n" : String).data = ['\r', '\n', '\r', '\n'] from rfl]
  have hench : encode_message v =
      (("Content-Length: ".data ++ (natToStr (serVal v).length).data).map
        Char.toNat) ++
        13 :: 10 :: 13 :: 10 :: (serVal v).map Char.toNat := by
    show utf8Encode ("Content-Length: " ++
        natToStr (utf8Encode (serVal v)).length ++ "\r\n\r\n").data ++
      utf8Encode (serVal v) = _
    rw [hHdr, hcontent, utf8Encode_ascii _ hasciiH]
    rw [List.map_append,
      show (['\r', '\n', '\r', '\n'].map Char.toNat) = [13, 10, 13, 10]
        from rfl]
    simp
  have hpre13 : ∀ b ∈ ("Content-Length: ".data ++
      (natToStr (serVal v).length).data).map Char.toNat, b ≠ 13 := by
    have hlit : ∀ x ∈ "Content-Length: ".data, x.toNat ≠ 13 := by decide
    intro b hb
    rcases List.mem_map.mp hb with ⟨c, hc, rfl⟩
    rcases List.mem_append.mp hc with h1 | h1
    · exact hlit c h1
    · have hd := hdig c h1
      simp only [isDigitChar, Bool.and_eq_true, decide_eq_true_eq] at hd
      omega
  have hsplit := readHeaderSplit_spec
    (("Content-Length: ".data ++ (natToStr (serVal v).length).data).map
      Char.toNat)
    ((serVal v).map Char.toNat) hpre13
  have hdecH : utf8Decode
      ((("Content-Length: ".data ++ (natToStr (serVal v).length).data).map
        Char.toNat) ++ [13, 10, 13, 10]) =
      some (("Content-Length: ".data ++
        (natToStr (serVal v).length).data) ++
        ['\r', '\n', '\r', '\n']) := by
    have h := utf8Decode_ascii (("Content-Length: ".data ++
      (natToStr (serVal v).length).data) ++ ['\r', '\n', '\r', '\n'])
      hasciiH
    rw [List.map_append,
      show (['\r', '\n', '\r', '\n'].map Char.toNat) = [13, 10, 13, 10]
        from rfl] at h
    exact h
  have hsplitC := splitColon_header (natToStr (serVal v).length).data hdig
  have hstrip := pyStrip_header_field (natToStr (serVal v).length).data
    hne hdig
  have hpyint := pyInt_digits (natToStr (serVal v).length).data hne hdig
  have htake : ((serVal v).map Char.toNat).take (serVal v).length =
      (serVal v).map Char.toNat := by
    rw [show (serVal v).length = ((serVal v).map Char.toNat).length from
      by simp]
    exact List.take_length _
  have hdecC : utf8Decode ((serVal v).map Char.toNat) = some (serVal v) :=
    utf8Decode_ascii (serVal v) hasciiS
  constructor
  · rw [hench]
    simp only [declaredContentLength]
    rw [hsplit]
    show (do
      let headerChars ← utf8Decode
        ((("Content-Length: ".data ++
          (natToStr (serVal v).length).data).map Char.toNat) ++
          [13, 10, 13, 10])
      let lenField ← (splitColonAux [] headerChars).get? 1
      pyInt (pyStrip lenField) : Option Nat) = some (utf8Len (dumps v))
    rw [hdecH]
    show (do
      let lenField ← (splitColonAux []
        (("Content-Length: ".data ++ (natToStr (serVal v).length).data) ++
          ['\r', '\n', '\r', '\n'])).get? 1
      pyInt (pyStrip lenField) : Option Nat) = some (utf8Len (dumps v))
    rw [hsplitC]
    show pyInt (pyStrip (' ' :: (natToStr (serVal v).length).data ++
      ['\r', '\n', '\r', '\n'])) = some (utf8Len (dumps v))
    rw [hstrip, hpyint, hval,
      show utf8Len (dumps v) = ((serVal v).map utf8CharLen).sum from rfl,
      utf8Len_ascii (serVal v) hasciiS]
  · rw [hench]
    simp only [read_message]
    rw [hsplit]
    show (do
      let headerChars ← utf8Decode
        ((("Content-Length: ".data ++
          (natToStr (serVal v).length).data).map Char.toNat) ++
          [13, 10, 13, 10])
      let lenField ← (splitColonAux [] headerChars).get? 1
      let n ← pyInt (pyStrip lenField)
      let contentChars ← utf8Decode (((serVal v).map Char.toNat).take n)
      json_loads ⟨contentChars⟩ : Option JVal) = some v
    rw [hdecH]
    show (do
      let lenField ← (splitColonAux []
        (("Content-Length: ".data ++ (natToStr (serVal v).length).data) ++
          ['\r', '\n', '\r', '\n'])).get? 1
      let n ← pyInt (pyStrip lenField)
      let contentChars ← utf8Decode (((serVal v).map Char.toNat).take n)
      json_loads ⟨contentChars⟩ : Option JVal) = some v
    rw [hsplitC]
    show (do
      let n ← pyInt (pyStrip (' ' :: (natToStr (serVal v).length).data ++
        ['\r', '\n', '\r', '\n']))
      let contentChars ← utf8Decode (((serVal v).map Char.toNat).take n)
      json_loads ⟨contentChars⟩ : Option JVal) = some v
    rw [hstrip, hpyint, hval]
    show (do
      let contentChars ← utf8Decode (((serVal v).map Char.toNat).take
        (serVal v).length)
      json_loads ⟨contentChars⟩ : Option JVal) = some v
    rw [htake, hdecC]
    exact json_loads_dumps v

/-- C9: for every JSON-RPC message object, `_encode_message` declares a
Content-Length equal to the UTF-8 byte length of the JSON body
`json.dumps(msg)`, and feeding the encoder's exact output bytes to
`_read_message` reconstructs an object deep-equal to the one encoded
(encode-then-read is the identity). -/
theorem C9_frame_roundtrip (fields : JObj) :
    declaredContentLength (encode_message (JVal.obj fields)) =
      some (utf8Len (dumps (JVal.obj fields))) ∧
    read_message (encode_message (JVal.obj fields)) =
      some (JVal.obj fields) :=
  frame_roundtrip (JVal.obj fields)

end MPH
